import Mathlib

/-!
Verification of the cherry-db-manager library: a shallow embedding of the
codec (src/utils.rs), the scan/locate/rewrite pipeline and the typed config
facade (src/manager.rs, src/types.rs) over a pure key-value store model.

Strings from the Rust side (Unicode scalar sequences) are modelled as
`List Nat` of scalar values; bytes as `Fin 256`.  JSON documents produced by
serde_json's Value type are modelled by the inductive `Json`, with numbers
restricted to integers (the float case of serde_json is outside the
embedding) and objects as association lists; Value objects are BTreeMaps,
so a well-formedness predicate (`Json.wfB`) records that keys are strictly
sorted and all strings are valid scalar sequences.  HashMap fields of the
server records are modelled as association lists in iteration order.
-/

/-- Unicode scalar values of a Lean string literal, used to spell Rust
string constants. -/
def ustr (s : String) : List Nat := s.data.map Char.toNat

/-- A Unicode scalar value: what a Rust char can hold. -/
def ValidChar (c : Nat) : Prop := c < 0xD800 ∨ (0xE000 ≤ c ∧ c < 0x110000)

instance (c : Nat) : Decidable (ValidChar c) := by
  unfold ValidChar
  infer_instance

/-- Byte as stored by the key-value store. -/
abbrev Byte := Fin 256

/-- Strict lexicographic order on key strings, matching Rust's `Ord` for
`String` (UTF-8 byte order coincides with scalar-value order). -/
def keyLtB : List Nat → List Nat → Bool
  | [], [] => false
  | [], _ :: _ => true
  | _ :: _, [] => false
  | a :: as, b :: bs => if a < b then true else if a = b then keyLtB as bs else false

/-- JSON documents as held by serde_json's `Value` (integer numbers only). -/
inductive Json where
  | null : Json
  | bool (b : Bool) : Json
  | num (n : Int) : Json
  | str (s : List Nat) : Json
  | arr (xs : List Json) : Json
  | obj (kvs : List (List Nat × Json)) : Json

/-- Association-list lookup, modelling `BTreeMap::get` on the object maps
(canonical objects have pairwise distinct keys). -/
def lookupKey : List (List Nat × Json) → List Nat → Option Json
  | [], _ => none
  | (k1, v) :: rest, k => if k1 = k then some v else lookupKey rest k

/-- Model of `serde_json::Value::get(key)`: map lookup on objects, `None`
on every other variant. -/
def Json.get : Json → List Nat → Option Json
  | .obj kvs, k => lookupKey kvs k
  | _, _ => none

/-- `BTreeMap::insert` on a sorted association list: used both when the
parser builds an object and for `json_data["mcp"] = ...`. -/
def objInsert : List (List Nat × Json) → List Nat → Json → List (List Nat × Json)
  | [], k, v => [(k, v)]
  | p :: rest, k, v =>
    if keyLtB k p.1 then (k, v) :: p :: rest
    else if k = p.1 then (k, v) :: rest
    else p :: objInsert rest k v

/-- Model of `json_data["mcp"] = Value::String(..)` (`index_mut` insert on
an object; the non-object case panics in Rust and is unreachable here, the
document is left unchanged). -/
def Json.setField (j : Json) (k : List Nat) (v : Json) : Json :=
  match j with
  | .obj kvs => .obj (objInsert kvs k v)
  | _ => j

/-- Decimal digits of a natural number, most significant first, as ASCII
scalar values. -/
def natDigits (n : Nat) : List Nat :=
  if h : n < 10 then [0x30 + n]
  else natDigits (n / 10) ++ [0x30 + n % 10]
decreasing_by
  exact Nat.div_lt_self (by omega) (by norm_num)

/-- Compact decimal rendering of an integer, as serde_json prints i64/u64. -/
def printInt : Int → List Nat
  | .ofNat m => natDigits m
  | .negSucc m => 0x2D :: natDigits (m + 1)

/-- Lower-case hex digit, as in serde_json's escape table. -/
def hexDigit (x : Nat) : Nat := if x < 10 then 0x30 + x else 0x61 + (x - 10)

/-- serde_json's string escaping: quote, backslash, and control characters
are escaped; everything else is emitted raw. -/
def escapeChar (c : Nat) : List Nat :=
  if c = 0x22 then [0x5C, 0x22]
  else if c = 0x5C then [0x5C, 0x5C]
  else if c < 0x20 then
    if c = 0x08 then [0x5C, 0x62]
    else if c = 0x09 then [0x5C, 0x74]
    else if c = 0x0A then [0x5C, 0x6E]
    else if c = 0x0C then [0x5C, 0x66]
    else if c = 0x0D then [0x5C, 0x72]
    else [0x5C, 0x75, 0x30, 0x30, hexDigit (c / 16), hexDigit (c % 16)]
  else [c]

/-- A JSON string literal: quotes around the escaped content. -/
def printQuoted (s : List Nat) : List Nat :=
  0x22 :: (s.flatMap escapeChar ++ [0x22])

mutual

/-- Compact (non-pretty) serialization, as `serde_json::Value::to_string`
produces. -/
def printJson : Json → List Nat
  | .null => [0x6E, 0x75, 0x6C, 0x6C]
  | .bool true => [0x74, 0x72, 0x75, 0x65]
  | .bool false => [0x66, 0x61, 0x6C, 0x73, 0x65]
  | .num n => printInt n
  | .str s => printQuoted s
  | .arr xs => 0x5B :: (printCommaSep xs ++ [0x5D])
  | .obj kvs => 0x7B :: (printMembers kvs ++ [0x7D])

/-- Comma-separated sequence of array items. -/
def printCommaSep : List Json → List Nat
  | [] => []
  | x :: xs => printJson x ++ printSepTail xs

/-- The items after the first one, each preceded by a comma. -/
def printSepTail : List Json → List Nat
  | [] => []
  | x :: xs => 0x2C :: (printJson x ++ printSepTail xs)

/-- Comma-separated sequence of object members. -/
def printMembers : List (List Nat × Json) → List Nat
  | [] => []
  | (k, v) :: rest => printQuoted k ++ (0x3A :: printJson v) ++ printMemTail rest

/-- The members after the first one, each preceded by a comma. -/
def printMemTail : List (List Nat × Json) → List Nat
  | [] => []
  | (k, v) :: rest => 0x2C :: (printQuoted k ++ (0x3A :: printJson v) ++ printMemTail rest)

end

/-- Keys of a JSON object (empty for every other variant). -/
def Json.objKeys : Json → List (List Nat)
  | .obj kvs => kvs.map (·.1)
  | _ => []

/-- Keys pairwise strictly below all later keys: the shape of a BTreeMap
dump. -/
def keysOrderedB : List (List Nat) → Bool
  | [] => true
  | k :: rest => rest.all (fun k2 => keyLtB k k2) && keysOrderedB rest

/-- All scalar values of a string are valid Unicode scalars. -/
def validStrB (s : List Nat) : Bool := s.all (fun c => decide (ValidChar c))

mutual

/-- Well-formedness of a document exactly as serde_json's `Value` maintains
it: object keys strictly sorted, all strings valid scalar sequences. -/
def Json.wfB : Json → Bool
  | .null => true
  | .bool _ => true
  | .num _ => true
  | .str s => validStrB s
  | .arr xs => Json.wfListB xs
  | .obj kvs => keysOrderedB (kvs.map (·.1)) && Json.wfKVsB kvs

/-- Well-formedness of the element list of an array. -/
def Json.wfListB : List Json → Bool
  | [] => true
  | x :: xs => Json.wfB x && Json.wfListB xs

/-- Well-formedness of the member list of an object. -/
def Json.wfKVsB : List (List Nat × Json) → Bool
  | [] => true
  | (k, v) :: rest => validStrB k && Json.wfB v && Json.wfKVsB rest

end

mutual

/-- Fuel bound for the recursive-descent parser: one unit per node plus one
per list element. -/
def Json.fsize : Json → Nat
  | .null => 1
  | .bool _ => 1
  | .num _ => 1
  | .str _ => 1
  | .arr xs => 1 + Json.fsizeList xs
  | .obj kvs => 1 + Json.fsizeKVs kvs

/-- Fuel bound for an array's element list. -/
def Json.fsizeList : List Json → Nat
  | [] => 0
  | x :: xs => 1 + Json.fsize x + Json.fsizeList xs

/-- Fuel bound for an object's member list. -/
def Json.fsizeKVs : List (List Nat × Json) → Nat
  | [] => 0
  | (_, v) :: rest => 1 + Json.fsize v + Json.fsizeKVs rest

end

/-- JSON insignificant whitespace (space, tab, line feed, carriage
return). -/
def isWs (c : Nat) : Bool := c = 0x20 || c = 0x09 || c = 0x0A || c = 0x0D

/-- Drop leading whitespace, as serde_json's tokenizer does between
tokens. -/
def skipWs : List Nat → List Nat
  | [] => []
  | c :: rest => if isWs c then skipWs rest else c :: rest

/-- ASCII decimal digit test. -/
def isDigit (c : Nat) : Bool := 0x30 ≤ c && c ≤ 0x39

/-- Consume a run of decimal digits, accumulating their value. -/
def parseDigitsLoop : Nat → List Nat → Nat × List Nat
  | acc, [] => (acc, [])
  | acc, c :: rest =>
    if isDigit c then parseDigitsLoop (acc * 10 + (c - 0x30)) rest
    else (acc, c :: rest)

/-- Hex digit value (either case accepted, as in serde_json's `\u`
escapes). -/
def hexVal (c : Nat) : Option Nat :=
  if 0x30 ≤ c ∧ c ≤ 0x39 then some (c - 0x30)
  else if 0x61 ≤ c ∧ c ≤ 0x66 then some (c - 0x61 + 10)
  else if 0x41 ≤ c ∧ c ≤ 0x46 then some (c - 0x41 + 10)
  else none

mutual

/-- Body of a JSON string literal, after the opening quote: handles the
escape sequences (including surrogate pairs) and rejects raw control
characters, mirroring serde_json. Returns the decoded scalar values and
the input after the closing quote. -/
def parseStringLoop : List Nat → Option (List Nat × List Nat)
  | [] => none
  | c :: rest =>
    if c = 0x22 then some ([], rest)
    else if c = 0x5C then parseStringEsc rest
    else if c < 0x20 then none
    else (parseStringLoop rest).map (fun p => (c :: p.1, p.2))

/-- An escape sequence, after the backslash. -/
def parseStringEsc : List Nat → Option (List Nat × List Nat)
  | [] => none
  | e :: rest2 =>
    if e = 0x22 ∨ e = 0x5C ∨ e = 0x2F then
      (parseStringLoop rest2).map (fun p => (e :: p.1, p.2))
    else if e = 0x62 then (parseStringLoop rest2).map (fun p => (0x08 :: p.1, p.2))
    else if e = 0x74 then (parseStringLoop rest2).map (fun p => (0x09 :: p.1, p.2))
    else if e = 0x6E then (parseStringLoop rest2).map (fun p => (0x0A :: p.1, p.2))
    else if e = 0x66 then (parseStringLoop rest2).map (fun p => (0x0C :: p.1, p.2))
    else if e = 0x72 then (parseStringLoop rest2).map (fun p => (0x0D :: p.1, p.2))
    else if e = 0x75 then parseStringHex rest2
    else none

/-- A `u` escape: four hex digits, possibly opening a surrogate pair. -/
def parseStringHex : List Nat → Option (List Nat × List Nat)
  | h1 :: h2 :: h3 :: h4 :: rest3 =>
    match hexVal h1, hexVal h2, hexVal h3, hexVal h4 with
    | some a, some b, some c2, some d =>
      let u := ((a * 16 + b) * 16 + c2) * 16 + d
      if u < 0xD800 ∨ 0xE000 ≤ u then
        (parseStringLoop rest3).map (fun p => (u :: p.1, p.2))
      else if u < 0xDC00 then parseStringLow u rest3
      else none
    | _, _, _, _ => none
  | _ => none

/-- The trailing low surrogate of a paired `u` escape. -/
def parseStringLow (u : Nat) : List Nat → Option (List Nat × List Nat)
  | c1 :: c2 :: g1 :: g2 :: g3 :: g4 :: rest4 =>
    if c1 = 0x5C ∧ c2 = 0x75 then
      match hexVal g1, hexVal g2, hexVal g3, hexVal g4 with
      | some a2, some b2, some c3, some d2 =>
        let u2 := ((a2 * 16 + b2) * 16 + c3) * 16 + d2
        if 0xDC00 ≤ u2 ∧ u2 < 0xE000 then
          (parseStringLoop rest4).map
            (fun p => ((0x10000 + (u - 0xD800) * 0x400 + (u2 - 0xDC00)) :: p.1, p.2))
        else none
      | _, _, _, _ => none
    else none
  | _ => none

end

/-- Rebuild an object from its members in source order, inserting each into
the map as serde_json's Value deserializer does. -/
def buildObj (pairs : List (List Nat × Json)) : List (List Nat × Json) :=
  pairs.foldl (fun m p => objInsert m p.1 p.2) []

/-- The tail of the `null` literal, after its first character. -/
def parseLitNull : List Nat → Option (Json × List Nat)
  | c1 :: c2 :: c3 :: r =>
    if c1 = 0x75 ∧ c2 = 0x6C ∧ c3 = 0x6C then some (.null, r) else none
  | _ => none

/-- The tail of the `true` literal, after its first character. -/
def parseLitTrue : List Nat → Option (Json × List Nat)
  | c1 :: c2 :: c3 :: r =>
    if c1 = 0x72 ∧ c2 = 0x75 ∧ c3 = 0x65 then some (.bool true, r) else none
  | _ => none

/-- The tail of the `false` literal, after its first character. -/
def parseLitFalse : List Nat → Option (Json × List Nat)
  | c1 :: c2 :: c3 :: c4 :: r =>
    if c1 = 0x61 ∧ c2 = 0x6C ∧ c3 = 0x73 ∧ c4 = 0x65 then some (.bool false, r) else none
  | _ => none

/-- Whether the input starts with a digit: the look-ahead serde_json uses
to reject a digit right after a leading zero. -/
def leadDigitB : List Nat → Bool
  | d :: _ => isDigit d
  | [] => false

/-- The digits of an exponent: at least one is required. -/
def parseExpDigits (n : Int) : List Nat → Option (Json × List Nat)
  | c :: rest =>
    if isDigit c then some (.num n, (parseDigitsLoop (c - 0x30) rest).2)
    else none
  | [] => none

/-- Just after the exponent marker: an optional sign, then the digits. -/
def parseExpSign (n : Int) : List Nat → Option (Json × List Nat)
  | c :: rest =>
    if c = 0x2B ∨ c = 0x2D then parseExpDigits n rest
    else parseExpDigits n (c :: rest)
  | [] => none

/-- After the fraction digits: an optional exponent. -/
def parseExpOpt (n : Int) : List Nat → Option (Json × List Nat)
  | [] => some (.num n, [])
  | c :: rest =>
    if c = 0x65 ∨ c = 0x45 then parseExpSign n rest
    else some (.num n, c :: rest)

/-- The fraction after the decimal point: at least one digit, then an
optional exponent. -/
def parseFrac (n : Int) : List Nat → Option (Json × List Nat)
  | c :: rest =>
    if isDigit c then parseExpOpt n (parseDigitsLoop (c - 0x30) rest).2
    else none
  | [] => none

/-- After the integer part of a number: an optional fraction and exponent,
following serde_json's grammar.  Non-integer numeric values are outside
this embedding — nothing in the crate ever writes one — so the grammar is
kept exact while the parsed value collapses to the integer part `n`. -/
def parseNumTail (n : Int) : List Nat → Option (Json × List Nat)
  | [] => some (.num n, [])
  | c :: rest =>
    if c = 0x2E then parseFrac n rest
    else if c = 0x65 ∨ c = 0x45 then parseExpSign n rest
    else some (.num n, c :: rest)

/-- Apply the sign to a parsed integer part, then the number tail. -/
def parseNumInt (neg : Bool) (p : Nat × List Nat) : Option (Json × List Nat) :=
  parseNumTail (if neg then -(p.1 : Int) else (p.1 : Int)) p.2

/-- A number from its first digit: a leading zero must stand alone
(serde_json rejects `01`), otherwise a run of digits; then the optional
fraction/exponent tail. -/
def parseNumStart (neg : Bool) (c : Nat) (rest : List Nat) : Option (Json × List Nat) :=
  if c = 0x30 then
    if leadDigitB rest then none else parseNumTail 0 rest
  else parseNumInt neg (parseDigitsLoop (c - 0x30) rest)

/-- A negative number, after the minus sign: serde_json requires a digit
right after it. -/
def parseNeg : List Nat → Option (Json × List Nat)
  | d :: rest2 =>
    if isDigit d then parseNumStart true d rest2 else none
  | [] => none

mutual

/-- Fuel-indexed recursive-descent parser for a JSON value, modelling
`serde_json::from_str::<Value>` (number grammar kept exact; non-integer
numeric values collapse to their integer part): skip whitespace, then
dispatch on the first character. -/
def parseValue : Nat → List Nat → Option (Json × List Nat)
  | 0, _ => none
  | Nat.succ fuel, l => parseValueCore fuel (skipWs l)

/-- Dispatch on the first significant character of a value. -/
def parseValueCore (fuel : Nat) : List Nat → Option (Json × List Nat)
  | [] => none
  | c :: rest =>
    if c = 0x6E then parseLitNull rest
    else if c = 0x74 then parseLitTrue rest
    else if c = 0x66 then parseLitFalse rest
    else if c = 0x22 then
      (parseStringLoop rest).map (fun p => (.str p.1, p.2))
    else if c = 0x2D then parseNeg rest
    else if isDigit c then parseNumStart false c rest
    else if c = 0x5B then parseArrayStart fuel (skipWs rest)
    else if c = 0x7B then parseObjStart fuel (skipWs rest)
    else none

/-- Just after an opening bracket: an empty array or the first item. -/
def parseArrayStart (fuel : Nat) : List Nat → Option (Json × List Nat)
  | [] => none
  | d :: rest2 =>
    if d = 0x5D then some (.arr [], rest2)
    else
      match parseValue fuel (d :: rest2) with
      | some (v, r) => parseArrayTail fuel [v] r
      | none => none

/-- After at least one array item: a comma and another item, or the closing
bracket. -/
def parseArrayTail : Nat → List Json → List Nat → Option (Json × List Nat)
  | 0, _, _ => none
  | Nat.succ fuel, acc, l => parseArrayCore fuel acc (skipWs l)

/-- Dispatch after an array item, whitespace skipped. -/
def parseArrayCore (fuel : Nat) (acc : List Json) : List Nat → Option (Json × List Nat)
  | [] => none
  | c :: rest =>
    if c = 0x5D then some (.arr acc.reverse, rest)
    else if c = 0x2C then
      match parseValue fuel rest with
      | some (v, r) => parseArrayTail fuel (v :: acc) r
      | none => none
    else none

/-- Just after an opening brace: an empty object or the first member. -/
def parseObjStart (fuel : Nat) : List Nat → Option (Json × List Nat)
  | [] => none
  | d :: rest2 =>
    if d = 0x7D then some (.obj [], rest2)
    else if d = 0x22 then
      match parseStringLoop rest2 with
      | some (k, r2) => parseMemberColon fuel [] k (skipWs r2)
      | none => none
    else none

/-- After at least one object member: a comma and another member, or the
closing brace. -/
def parseObjTail : Nat → List (List Nat × Json) → List Nat → Option (Json × List Nat)
  | 0, _, _ => none
  | Nat.succ fuel, acc, l => parseObjCore fuel acc (skipWs l)

/-- Dispatch after an object member, whitespace skipped. -/
def parseObjCore (fuel : Nat) (acc : List (List Nat × Json)) :
    List Nat → Option (Json × List Nat)
  | [] => none
  | c :: rest =>
    if c = 0x7D then some (.obj (buildObj acc.reverse), rest)
    else if c = 0x2C then parseMemberKey fuel acc (skipWs rest)
    else none

/-- The quoted key of an object member. -/
def parseMemberKey (fuel : Nat) (acc : List (List Nat × Json)) :
    List Nat → Option (Json × List Nat)
  | [] => none
  | d :: r2 =>
    if d = 0x22 then
      match parseStringLoop r2 with
      | some (k, r3) => parseMemberColon fuel acc k (skipWs r3)
      | none => none
    else none

/-- The colon and value of an object member. -/
def parseMemberColon (fuel : Nat) (acc : List (List Nat × Json)) (k : List Nat) :
    List Nat → Option (Json × List Nat)
  | [] => none
  | e :: r4 =>
    if e = 0x3A then
      match parseValue fuel r4 with
      | some (v, r5) => parseObjTail fuel ((k, v) :: acc) r5
      | none => none
    else none

end
/-- Model of `serde_json::from_str::<Value>`: parse one value and require
only trailing whitespace after it.  The fuel `length + 1` dominates the
nesting depth of any input. -/
def from_str (s : List Nat) : Option Json :=
  match parseValue (s.length + 1) s with
  | some (v, r) => if skipWs r = [] then some v else none
  | none => none

/-- Error type of the crate (src/error.rs).  `ServerNotFound` carries the
requested identifier; message payloads are carried where the Rust code
builds a fixed string, and left empty where the message comes from serde. -/
inductive CherryDbError where
  | DatabaseError (msg : String)
  | JsonError (msg : String)
  | EncodingError (msg : String)
  | ConfigNotFound
  | InvalidPath (path : String)
  | ServerNotFound (id : List Nat)
  | InvalidServer (msg : String)
deriving DecidableEq

/-- UTF-16 code units of one scalar value (`char::encode_utf16`). -/
def utf16EncodeChar (c : Nat) : List Nat :=
  if c < 0x10000 then [c]
  else [0xD800 + (c - 0x10000) / 0x400, 0xDC00 + (c - 0x10000) % 0x400]

/-- UTF-16 code units of a string (`str::encode_utf16`). -/
def utf16Encode (s : List Nat) : List Nat := s.flatMap utf16EncodeChar

mutual

/-- Model of `String::from_utf16`: decode code units, rejecting unpaired
surrogates. -/
def utf16Decode : List Nat → Option (List Nat)
  | [] => some []
  | u :: rest =>
    if u < 0xD800 ∨ 0xE000 ≤ u then (utf16Decode rest).map (u :: ·)
    else if u < 0xDC00 then utf16DecodePair u rest
    else none

/-- Continuation after a leading high surrogate: a low surrogate must
follow. -/
def utf16DecodePair (u : Nat) : List Nat → Option (List Nat)
  | [] => none
  | v :: rest2 =>
    if 0xDC00 ≤ v ∧ v < 0xE000 then
      (utf16Decode rest2).map ((0x10000 + (u - 0xD800) * 0x400 + (v - 0xDC00)) :: ·)
    else none

end

/-- Low byte of a u16 (`u16::to_le_bytes`, first byte). -/
def u16lo (u : Nat) : Byte := ⟨u % 256, Nat.mod_lt _ (by norm_num)⟩

/-- High byte of a u16 (`u16::to_le_bytes`, second byte). -/
def u16hi (u : Nat) : Byte := ⟨u / 256 % 256, Nat.mod_lt _ (by norm_num)⟩

/-- Little-endian byte stream of a code-unit sequence. -/
def unitsToBytes (us : List Nat) : List Byte := us.flatMap (fun u => [u16lo u, u16hi u])

/-- `chunks_exact(2)` plus `u16::from_le_bytes`: rebuild code units from a
byte stream, dropping a trailing odd byte as `chunks_exact` does. -/
def bytesToUnits : List Byte → List Nat
  | b0 :: b1 :: rest => (b0.val + 256 * b1.val) :: bytesToUnits rest
  | _ => []

/-- Model of `decode_utf16_le_bytes` (src/utils.rs): reject empty input,
drop the header byte, require an even payload, decode UTF-16, then parse
JSON. -/
def decode_utf16_le_bytes (bytes : List Byte) : Except CherryDbError Json :=
  match bytes with
  | [] => .error (.EncodingError "Empty bytes")
  | _ :: utf16_bytes =>
    if utf16_bytes.length % 2 ≠ 0 then .error (.EncodingError "Invalid UTF-16 data length")
    else
      match utf16Decode (bytesToUnits utf16_bytes) with
      | none => .error (.EncodingError "Invalid UTF-16 data")
      | some json_string =>
        match from_str json_string with
        | some v => .ok v
        | none => .error (.JsonError "")

/-- Model of `encode_json_to_bytes` (src/utils.rs): compact serialization,
UTF-16 LE code units, and a leading `0x00` header byte. -/
def encode_json_to_bytes (json : Json) : List Byte :=
  ⟨0, by norm_num⟩ :: unitsToBytes (utf16Encode (printJson json))

/-- One scanned entry (src/types.rs `DatabaseEntry`): raw key and value
plus the optional decoded document. -/
structure DatabaseEntry where
  key : List Byte
  value : List Byte
  json_data : Option Json

/-- The key-value store, as exposed through its iteration capability: the
ordered sequence of raw entries.  Environment failures (missing path,
store-open or put failure) are outside the embedding. -/
structure Store where
  entries : List (List Byte × List Byte)

/-- A single `db.put(key, value)` issued by the rewrite step. -/
structure Put where
  key : List Byte
  value : List Byte

/-- Effect of a put on the store: overwrite the value of an existing key,
or add the pair. -/
def Store.applyPut (s : Store) (p : Put) : Store :=
  if s.entries.any (fun kv => kv.1 = p.key) then
    ⟨s.entries.map (fun kv => if kv.1 = p.key then (kv.1, p.value) else kv)⟩
  else ⟨s.entries ++ [(p.key, p.value)]⟩

/-- Value currently stored under a key. -/
def Store.get (s : Store) (k : List Byte) : Option (List Byte) :=
  (s.entries.find? (fun kv => kv.1 = k)).map (·.2)

/-- Iterator loop of `open_database_and_read_entries` (src/utils.rs):
pushes one entry per raw pair; a decode failure only leaves `json_data`
empty. -/
def readEntriesLoop : List (List Byte × List Byte) → List DatabaseEntry → List DatabaseEntry
  | [], acc => acc.reverse
  | (key, value) :: rest, acc =>
    readEntriesLoop rest (⟨key, value, (decode_utf16_le_bytes value).toOption⟩ :: acc)

/-- Model of `open_database_and_read_entries`: scan all entries in the
store's iteration order. -/
def open_database_and_read_entries (s : Store) : List DatabaseEntry :=
  readEntriesLoop s.entries []

/-- Request structure for a server (src/types.rs `ServerRequest`).  HashMap
fields are association lists in iteration order. -/
structure ServerRequest where
  id : List Nat
  is_active : Bool
  server_type : List Nat
  name : List Nat
  command : Option (List Nat)
  args : Option (List (List Nat))
  env : Option (List (List Nat × List Nat))
  base_url : Option (List Nat)
  headers : Option (List (List Nat × List Nat))
  long_running : Option Bool
deriving DecidableEq

/-- Response structure for a server (src/types.rs `ServerResponse`),
field-for-field identical to `ServerRequest`. -/
structure ServerResponse where
  id : List Nat
  is_active : Bool
  server_type : List Nat
  name : List Nat
  command : Option (List Nat)
  args : Option (List (List Nat))
  env : Option (List (List Nat × List Nat))
  base_url : Option (List Nat)
  headers : Option (List (List Nat × List Nat))
  long_running : Option Bool
deriving DecidableEq

/-- `impl From<ServerRequest> for ServerResponse`. -/
def ServerResponse.ofRequest (req : ServerRequest) : ServerResponse :=
  ⟨req.id, req.is_active, req.server_type, req.name, req.command, req.args, req.env,
    req.base_url, req.headers, req.long_running⟩

/-- `impl From<ServerResponse> for ServerRequest`. -/
def ServerRequest.ofResponse (resp : ServerResponse) : ServerRequest :=
  ⟨resp.id, resp.is_active, resp.server_type, resp.name, resp.command, resp.args, resp.env,
    resp.base_url, resp.headers, resp.long_running⟩

/-- `McpConfigRequest`: the list to write. -/
structure McpConfigRequest where
  servers : List ServerRequest

/-- `McpConfigResponse`: the list read back. -/
structure McpConfigResponse where
  servers : List ServerResponse
deriving DecidableEq

/-- `ServerListResponse`: servers plus the derived count. -/
structure ServerListResponse where
  servers : List ServerResponse
  total_count : Nat
deriving DecidableEq

/-- `CherryMcpConfig`: the Nested Config Document in typed form. -/
structure CherryMcpConfig where
  servers : List ServerResponse
deriving DecidableEq

/-- Serialized wire keys of the server record (camelCase renames from the
serde attributes in src/types.rs). -/
def idKey : List Nat := ustr "id"

/-- Wire key of the active flag, renamed to camelCase. -/
def isActiveKey : List Nat := ustr "isActive"

/-- Wire key of the transport type (`type` in JSON). -/
def typeKey : List Nat := ustr "type"

/-- Wire key of the display name. -/
def nameKey : List Nat := ustr "name"

/-- Wire key of the stdio command. -/
def commandKey : List Nat := ustr "command"

/-- Wire key of the stdio arguments. -/
def argsKey : List Nat := ustr "args"

/-- Wire key of the environment mapping. -/
def envKey : List Nat := ustr "env"

/-- Wire key of the HTTP base URL, renamed to camelCase. -/
def baseUrlKey : List Nat := ustr "baseUrl"

/-- Wire key of the HTTP header mapping. -/
def headersKey : List Nat := ustr "headers"

/-- Wire key of the long-running flag, renamed to camelCase. -/
def longRunningKey : List Nat := ustr "longRunning"

/-- Wire key of the server list in the nested config document. -/
def serversKey : List Nat := ustr "servers"

/-- The field of the parent document holding the nested config document. -/
def mcpKey : List Nat := ustr "mcp"

/-- The full wire field set of a server record. -/
def knownFieldKeys : List (List Nat) :=
  [idKey, isActiveKey, typeKey, nameKey, commandKey, argsKey, envKey, baseUrlKey,
    headersKey, longRunningKey]

/-- One optional serde field: skipped entirely when `None`
(`skip_serializing_if = "Option::is_none"`). -/
def optMember (key : List Nat) (o : Option α) (f : α → Json) : List (List Nat × Json) :=
  match o with
  | none => []
  | some x => [(key, f x)]

/-- A string-to-string map serialized as a JSON object. -/
def strMapToJson (m : List (List Nat × List Nat)) : Json :=
  .obj (m.map (fun kv => (kv.1, .str kv.2)))

/-- The serialized member list of a server record: fields in declaration
order, absent optional fields omitted. -/
def serverPairs (r : ServerResponse) : List (List Nat × Json) :=
  (idKey, .str r.id) :: (isActiveKey, .bool r.is_active) ::
    (typeKey, .str r.server_type) :: (nameKey, .str r.name) ::
    (optMember commandKey r.command .str ++
      (optMember argsKey r.args (fun a => .arr (a.map .str)) ++
        (optMember envKey r.env strMapToJson ++
          (optMember baseUrlKey r.base_url .str ++
            (optMember headersKey r.headers strMapToJson ++
              optMember longRunningKey r.long_running .bool)))))

/-- serde serialization of `ServerResponse`. -/
def ServerResponse.toJson (r : ServerResponse) : Json := .obj (serverPairs r)

/-- serde serialization of `CherryMcpConfig`. -/
def CherryMcpConfig.toJson (c : CherryMcpConfig) : Json :=
  .obj [(serversKey, .arr (c.servers.map ServerResponse.toJson))]

/-- Extract a JSON string. -/
def asStr : Json → Option (List Nat)
  | .str s => some s
  | _ => none

/-- Extract a JSON boolean. -/
def asBool : Json → Option Bool
  | .bool b => some b
  | _ => none

/-- Extract an array of strings (`Vec<String>`). -/
def asStrList : Json → Option (List (List Nat))
  | .arr xs => xs.mapM asStr
  | _ => none

/-- Extract a string-to-string object (`HashMap<String, String>`). -/
def asStrMap : Json → Option (List (List Nat × List Nat))
  | .obj kvs => kvs.mapM (fun kv => (asStr kv.2).map (fun s => (kv.1, s)))
  | _ => none

/-- serde's handling of an `Option` field with `default`: absent or `null`
gives `None`; a present value of the wrong shape is an error. -/
def optionalField (j : Json) (key : List Nat) (f : Json → Option α) : Option (Option α) :=
  match j.get key with
  | none => some none
  | some .null => some none
  | some v => (f v).map some

/-- serde deserialization of `ServerResponse` from a document: requires the
four mandatory fields, tolerates unknown fields, treats absent or null
optionals as `None`. -/
def ServerResponse.fromJson (j : Json) : Option ServerResponse :=
  match j with
  | .obj _ => do
    let id ← (j.get idKey).bind asStr
    let isActive ← (j.get isActiveKey).bind asBool
    let ty ← (j.get typeKey).bind asStr
    let nm ← (j.get nameKey).bind asStr
    let command ← optionalField j commandKey asStr
    let args ← optionalField j argsKey asStrList
    let env ← optionalField j envKey asStrMap
    let baseUrl ← optionalField j baseUrlKey asStr
    let headers ← optionalField j headersKey asStrMap
    let longRunning ← optionalField j longRunningKey asBool
    some ⟨id, isActive, ty, nm, command, args, env, baseUrl, headers, longRunning⟩
  | _ => none

/-- serde deserialization of `CherryMcpConfig`: a document with a mandatory
`servers` array of server records. -/
def CherryMcpConfig.fromJson (j : Json) : Option CherryMcpConfig :=
  match j with
  | .obj _ =>
    match j.get serversKey with
    | some (.arr xs) => (xs.mapM ServerResponse.fromJson).map CherryMcpConfig.mk
    | _ => none
  | _ => none

/-- `serde_json::from_str::<CherryMcpConfig>`: parse the text, then read
the typed structure out of it.  Going through the `Value` layer keeps
serde's last-wins treatment of duplicate object keys; the derive's
duplicate-field error is outside this model (well-formed documents have
strictly sorted keys, and every theorem below is parametric in this
parse's outcome). -/
def parseCherryConfig (s : List Nat) : Option CherryMcpConfig :=
  (from_str s).bind CherryMcpConfig.fromJson

/-- Loop of `find_mcp_config_internal` (src/manager.rs): first entry whose
decoded document has a string-typed `mcp` field wins; a parse failure of
that string is a JSON error, not a skip. -/
def findMcpLoop : List DatabaseEntry → Except CherryDbError (CherryMcpConfig × Json)
  | [] => .error .ConfigNotFound
  | e :: rest =>
    match e.json_data with
    | some json_data =>
      match json_data.get mcpKey with
      | some (.str mcp_config_str) =>
        match parseCherryConfig mcp_config_str with
        | some mcp_config => .ok (mcp_config, json_data)
        | none => .error (.JsonError "")
      | _ => findMcpLoop rest
    | none => findMcpLoop rest

/-- Model of `DefaultCherryDbManager::find_mcp_config_internal`. -/
def find_mcp_config_internal (s : Store) : Except CherryDbError (CherryMcpConfig × Json) :=
  findMcpLoop (open_database_and_read_entries s)

/-- Model of `DefaultCherryDbManager::update_database_entry`: re-scan,
pick the first entry with any decoded document, and put the encoded
updated document under that entry's key.  The successful result is the
single put issued (store-open and put failures are environment failures
outside the embedding). -/
def update_database_entry (s : Store) (updated_json : Json) : Except CherryDbError Put :=
  match (open_database_and_read_entries s).find? (fun e => e.json_data.isSome) with
  | none => .error .ConfigNotFound
  | some target_entry => .ok ⟨target_entry.key, encode_json_to_bytes updated_json⟩

/-- Model of `read_mcp_config`. -/
def read_mcp_config (s : Store) : Except CherryDbError McpConfigResponse :=
  (find_mcp_config_internal s).map (fun p => ⟨p.1.servers⟩)

/-- Model of `write_mcp_config`: re-locate, rebuild the typed config,
serialize it compactly, replace the `mcp` string of the parent document,
and rewrite. -/
def write_mcp_config (s : Store) (config : McpConfigRequest) : Except CherryDbError Put :=
  match find_mcp_config_internal s with
  | .error e => .error e
  | .ok (_, json_data) =>
    let updated_cherry_config : CherryMcpConfig :=
      ⟨config.servers.map ServerResponse.ofRequest⟩
    let mcp_config_str := printJson (CherryMcpConfig.toJson updated_cherry_config)
    update_database_entry s (json_data.setField mcpKey (.str mcp_config_str))

/-- Model of `list_servers`. -/
def list_servers (s : Store) : Except CherryDbError ServerListResponse :=
  (read_mcp_config s).map (fun config => ⟨config.servers, config.servers.length⟩)

/-- Model of `add_server`: drop any record with the same identifier, append
the new one, rewrite. -/
def add_server (s : Store) (server : ServerRequest) : Except CherryDbError Put :=
  match read_mcp_config s with
  | .error e => .error e
  | .ok config =>
    let kept := config.servers.filter (fun x => x.id ≠ server.id)
    let servers := kept ++ [ServerResponse.ofRequest server]
    write_mcp_config s ⟨servers.map ServerRequest.ofResponse⟩

/-- Model of `remove_server`: drop all records with the identifier; if the
length is unchanged fail with `ServerNotFound` without touching the store,
else rewrite. -/
def remove_server (s : Store) (server_id : List Nat) : Except CherryDbError Put :=
  match read_mcp_config s with
  | .error e => .error e
  | .ok config =>
    let kept := config.servers.filter (fun x => x.id ≠ server_id)
    if kept.length = config.servers.length then .error (.ServerNotFound server_id)
    else write_mcp_config s ⟨kept.map ServerRequest.ofResponse⟩

/-- Model of `server_exists`. -/
def server_exists (s : Store) (server_id : List Nat) : Except CherryDbError Bool :=
  (read_mcp_config s).map (fun config => config.servers.any (fun x => x.id = server_id))

/-- The Locator's match test: the entry decoded to a document whose `mcp`
field is a string. -/
def entryMatches (e : DatabaseEntry) : Bool :=
  match e.json_data with
  | some j =>
    match j.get mcpKey with
    | some (.str _) => true
    | _ => false
  | none => false

/-- The key of the located entry: the first scanned entry satisfying the
match test. -/
def locatedEntryKey (s : Store) : Option (List Byte) :=
  ((open_database_and_read_entries s).find? entryMatches).map (fun e => e.key)

/-- Did the decode fail with an `EncodingError`? -/
def isEncodingFailure : Except CherryDbError Json → Bool
  | .error (.EncodingError _) => true
  | _ => false

/-- Did the decode fail with a `JsonError`? -/
def isJsonFailure : Except CherryDbError Json → Bool
  | .error (.JsonError _) => true
  | _ => false

/-- A byte literal. -/
def byte (n : Nat) (h : n < 256 := by norm_num) : Byte := ⟨n, h⟩

/-- Demo document with no `mcp` field, but decodable: the first entry of
the divergence store. -/
def otherDoc : Json := .obj [(ustr "a", .num 1)]

/-- The stored nested config document of the divergence store: an empty
server list. -/
def emptyInner : Json := .obj [(serversKey, .arr [])]

/-- Demo parent document: a string-typed `mcp` field holding an empty
server list, plus one unrelated field. -/
def parentDoc : Json :=
  .obj [(mcpKey, .str (printJson emptyInner)), (ustr "other", .num 1)]

/-- Key of the first (non-mcp) entry of the divergence store. -/
def keyA : List Byte := [byte 0]

/-- Key of the located (mcp) entry of the divergence store. -/
def keyB : List Byte := [byte 1]

/-- A store whose first JSON-decodable entry is not the entry holding the
configuration: the rewrite step targets the wrong key here. -/
def divergenceStore : Store :=
  ⟨[(keyA, encode_json_to_bytes otherDoc), (keyB, encode_json_to_bytes parentDoc)]⟩

/-- The written parent document of the divergence scenario. -/
def divergenceWritten : Json :=
  parentDoc.setField mcpKey (.str (printJson (CherryMcpConfig.toJson ⟨[]⟩)))

/-- A demo stored server record. -/
def srvS2 : ServerResponse :=
  ⟨ustr "s2", true, ustr "stdio", ustr "S2", none, none, none, none, none, none⟩

/-- The stored JSON form of the demo server record, with keys in map
order as the host application would have stored it. -/
def srvS2Doc : Json :=
  .obj [(idKey, .str (ustr "s2")), (isActiveKey, .bool true),
    (nameKey, .str (ustr "S2")), (typeKey, .str (ustr "stdio"))]

/-- The stored nested config document of the demo store. -/
def demoInner : Json := .obj [(serversKey, .arr [srvS2Doc])]

/-- The stored `mcp` string of the demo store. -/
def demoMcpStr : List Nat := printJson demoInner

/-- Parent document of the single-entry demo store. -/
def demoParent : Json := .obj [(mcpKey, .str demoMcpStr)]

/-- A store holding one entry with one stored server `s2`. -/
def demoStore : Store := ⟨[([byte 7], encode_json_to_bytes demoParent)]⟩

/-- A request for a new server `s1`, with stdio fields set. -/
def reqS1 : ServerRequest :=
  ⟨ustr "s1", true, ustr "stdio", ustr "S1", some (ustr "node"), some [ustr "x"],
    none, none, none, none⟩

/-- A store none of whose entries decodes to a document with an `mcp`
field (here the single value is empty and does not decode at all). -/
def noMcpStore : Store := ⟨[([byte 3], [])]⟩

/-- A stored server record carrying an unknown extra field inside its JSON
form. -/
def extraFieldServerJson : Json :=
  .obj [(ustr "extra", .num 7), (idKey, .str (ustr "s9")), (isActiveKey, .bool false),
    (typeKey, .str (ustr "sse")), (nameKey, .str (ustr "S9")),
    (baseUrlKey, .str (ustr "u"))]

theorem skipWs_cons_of_not_ws {c : Nat} (l : List Nat) (h : isWs c = false) :
    skipWs (c :: l) = c :: l := by
  simp [skipWs, h]

theorem natDigits_ne_nil (n : Nat) : natDigits n ≠ [] := by
  rw [natDigits]
  split <;> simp

theorem natDigits_digits (n : Nat) : ∀ c ∈ natDigits n, isDigit c = true := by
  induction n using Nat.strong_induction_on with
  | _ n ih =>
    rw [natDigits]
    split
    · intro c hc
      simp at hc
      subst hc
      simp [isDigit]
      omega
    · intro c hc
      rw [List.mem_append] at hc
      rcases hc with hc | hc
      · exact ih (n / 10) (Nat.div_lt_self (by omega) (by norm_num)) c hc
      · simp at hc
        subst hc
        simp [isDigit]
        omega

theorem natDigits_foldl (n : Nat) :
    (natDigits n).foldl (fun a c => a * 10 + (c - 0x30)) 0 = n := by
  induction n using Nat.strong_induction_on with
  | _ n ih =>
    rw [natDigits]
    split
    · simp
    · rw [List.foldl_append]
      rw [ih (n / 10) (Nat.div_lt_self (by omega) (by norm_num))]
      simp
      omega

theorem natDigits_head (n : Nat) :
    0 < n → ∃ d ds, natDigits n = d :: ds ∧ 0x31 ≤ d ∧ d ≤ 0x39 := by
  induction n using Nat.strong_induction_on with
  | _ n ih =>
    intro hn
    rw [natDigits]
    split
    · exact ⟨0x30 + n, [], rfl, by omega, by omega⟩
    · obtain ⟨d, ds, hds, hd1, hd2⟩ := ih (n / 10)
        (Nat.div_lt_self (by omega) (by norm_num)) (by omega)
      rw [hds]
      exact ⟨d, ds ++ [0x30 + n % 10], rfl, hd1, hd2⟩

theorem parseDigitsLoop_append (l rest : List Nat) (hl : ∀ c ∈ l, isDigit c = true)
    (hrest : rest = [] ∨ ∃ d t, rest = d :: t ∧ isDigit d = false) :
    ∀ acc, parseDigitsLoop acc (l ++ rest) =
      (l.foldl (fun a c => a * 10 + (c - 0x30)) acc, rest) := by
  induction l with
  | nil =>
    intro acc
    rcases hrest with h | ⟨d, t, hdt, hd⟩
    · subst h
      simp [parseDigitsLoop]
    · subst hdt
      simp [parseDigitsLoop, hd]
  | cons c cs ih =>
    intro acc
    have hc : isDigit c = true := hl c (by simp)
    simp only [List.cons_append, parseDigitsLoop, hc, if_true, List.append_eq,
      List.foldl_cons]
    exact ih (fun x hx => hl x (by simp [hx])) (acc * 10 + (c - 0x30))

theorem keyLtB_asymm : ∀ a b : List Nat, keyLtB a b = true → keyLtB b a = false := by
  intro a
  induction a with
  | nil =>
    intro b _
    cases b <;> simp [keyLtB]
  | cons x xs ih =>
    intro b hab
    cases b with
    | nil => simp [keyLtB] at hab
    | cons y ys =>
      simp only [keyLtB] at hab ⊢
      split at hab
      · rw [if_neg (by omega), if_neg (by omega)]
      · split at hab
        · rename_i h1 h2
          rw [if_neg (by omega), if_pos (by omega)]
          exact ih ys hab
        · simp at hab

theorem keyLtB_ne : ∀ a b : List Nat, keyLtB a b = true → a ≠ b := by
  intro a
  induction a with
  | nil =>
    intro b h
    cases b with
    | nil => simp [keyLtB] at h
    | cons y ys => simp
  | cons x xs ih =>
    intro b h
    cases b with
    | nil => simp [keyLtB] at h
    | cons y ys =>
      simp only [keyLtB] at h
      split at h
      · rename_i h1
        simp
        intro he
        omega
      · split at h
        · rename_i h1 h2
          subst h2
          simp
          exact ih ys h
        · simp at h

theorem objInsert_append (k : List Nat) (v : Json) :
    ∀ acc : List (List Nat × Json), (∀ p ∈ acc, keyLtB p.1 k = true) →
      objInsert acc k v = acc ++ [(k, v)] := by
  intro acc
  induction acc with
  | nil => intro _; simp [objInsert]
  | cons p rest ih =>
    intro h
    have hp : keyLtB p.1 k = true := h p (by simp)
    have h1 : keyLtB k p.1 = false := keyLtB_asymm p.1 k hp
    have h2 : ¬(k = p.1) := fun he => keyLtB_ne p.1 k hp he.symm
    simp only [objInsert, h1, Bool.false_eq_true, if_false, if_neg h2]
    rw [ih (fun q hq => h q (by simp [hq]))]
    simp

theorem foldl_objInsert_sorted :
    ∀ (kvs acc : List (List Nat × Json)),
      keysOrderedB (kvs.map (·.1)) = true →
      (∀ p ∈ acc, ∀ q ∈ kvs, keyLtB p.1 q.1 = true) →
      kvs.foldl (fun m p => objInsert m p.1 p.2) acc = acc ++ kvs := by
  intro kvs
  induction kvs with
  | nil => intro acc _ _; simp
  | cons q rest ih =>
    intro acc hord hlt
    simp only [List.foldl_cons]
    rw [objInsert_append q.1 q.2 acc (fun p hp => hlt p hp q (by simp))]
    simp only [List.map_cons, keysOrderedB, Bool.and_eq_true, List.all_eq_true] at hord
    rw [ih (acc ++ [(q.1, q.2)]) hord.2]
    · simp
    · intro p hp r hr
      rw [List.mem_append] at hp
      rcases hp with hp | hp
      · exact hlt p hp r (by simp [hr])
      · simp at hp
        subst hp
        exact hord.1 r.1 (List.mem_map_of_mem (·.1) hr)

theorem buildObj_sorted (kvs : List (List Nat × Json))
    (h : keysOrderedB (kvs.map (·.1)) = true) : buildObj kvs = kvs := by
  have := foldl_objInsert_sorted kvs [] h (by simp)
  simpa [buildObj] using this

theorem Json.inductionOn {P : Json → Prop}
    (hnull : P .null) (hbool : ∀ b, P (.bool b)) (hnum : ∀ n, P (.num n))
    (hstr : ∀ s, P (.str s))
    (harr : ∀ xs, (∀ x ∈ xs, P x) → P (.arr xs))
    (hobj : ∀ kvs, (∀ p ∈ kvs, P p.2) → P (.obj kvs)) :
    ∀ v, P v := by
  have H : ∀ n v, sizeOf v ≤ n → P v := by
    intro n
    induction n with
    | zero =>
      intro v hv
      cases v <;> simp at hv
    | succ n ih =>
      intro v hv
      cases v with
      | null => exact hnull
      | bool b => exact hbool b
      | num m => exact hnum m
      | str s => exact hstr s
      | arr xs =>
        refine harr xs (fun x hx => ih x ?_)
        have := List.sizeOf_lt_of_mem hx
        simp at hv
        omega
      | obj kvs =>
        refine hobj kvs (fun p hp => ih p.2 ?_)
        have h1 := List.sizeOf_lt_of_mem hp
        have h2 : sizeOf p.2 < sizeOf p := by
          cases p
          simp
        simp at hv
        omega
  exact fun v => H (sizeOf v) v le_rfl

theorem utf16EncodeChar_lt {c : Nat} (h : ValidChar c) :
    ∀ u ∈ utf16EncodeChar c, u < 0x10000 := by
  intro u hu
  unfold utf16EncodeChar at hu
  rcases h with h | h
  · rw [if_pos (by omega)] at hu
    simp at hu
    omega
  · split at hu
    · simp at hu
      omega
    · simp at hu
      rcases hu with hu | hu <;> omega

theorem bytesToUnits_unitsToBytes (us : List Nat) (h : ∀ u ∈ us, u < 0x10000) :
    bytesToUnits (unitsToBytes us) = us := by
  induction us with
  | nil => simp [unitsToBytes, bytesToUnits]
  | cons u rest ih =>
    have hu : u < 0x10000 := h u (by simp)
    have step : unitsToBytes (u :: rest) = u16lo u :: u16hi u :: unitsToBytes rest := by
      simp [unitsToBytes]
    have step2 : bytesToUnits (u16lo u :: u16hi u :: unitsToBytes rest) =
        ((u16lo u).val + 256 * (u16hi u).val) :: bytesToUnits (unitsToBytes rest) := rfl
    rw [step, step2, ih (fun x hx => h x (by simp [hx]))]
    congr 1
    simp only [u16lo, u16hi]
    omega

theorem unitsToBytes_length_even (us : List Nat) : (unitsToBytes us).length % 2 = 0 := by
  induction us with
  | nil => simp [unitsToBytes]
  | cons u rest ih =>
    simp only [unitsToBytes, List.flatMap_cons] at *
    simp only [List.length_append, List.length_cons, List.length_nil]
    omega

theorem utf16Decode_encode (s : List Nat) (h : ∀ c ∈ s, ValidChar c) :
    utf16Decode (utf16Encode s) = some s := by
  induction s with
  | nil => simp [utf16Encode, utf16Decode]
  | cons c rest ih =>
    have hc : ValidChar c := h c (by simp)
    have ihr := ih (fun x hx => h x (by simp [hx]))
    simp only [utf16Encode, List.flatMap_cons] at *
    by_cases hlt : c < 0x10000
    · have he : utf16EncodeChar c = [c] := by simp [utf16EncodeChar, hlt]
      rw [he]
      simp only [List.cons_append, List.nil_append]
      rw [utf16Decode, if_pos]
      · rw [ihr]
        simp
      · unfold ValidChar at hc
        omega
    · have hc2 : c < 0x110000 := by
        unfold ValidChar at hc
        omega
      have he : utf16EncodeChar c =
          [0xD800 + (c - 0x10000) / 0x400, 0xDC00 + (c - 0x10000) % 0x400] := by
        simp [utf16EncodeChar, hlt]
      rw [he]
      simp only [List.cons_append, List.nil_append]
      rw [utf16Decode, if_neg (by omega), if_pos (by omega)]
      rw [utf16DecodePair, if_pos (by omega)]
      rw [ihr]
      have hval : 0x10000 + (0xD800 + (c - 0x10000) / 0x400 - 0xD800) * 0x400 +
          (0xDC00 + (c - 0x10000) % 0x400 - 0xDC00) = c := by omega
      rw [Option.map_some', hval]

theorem hexVal_hexDigit {x : Nat} (h : x < 16) : hexVal (hexDigit x) = some x := by
  unfold hexVal hexDigit
  split
  · rw [if_pos (by omega)]
    congr 1
    omega
  · rw [if_neg (by omega), if_pos (by omega)]
    congr 1
    omega

theorem parseStringLoop_print (s : List Nat) (h : ∀ c ∈ s, ValidChar c) :
    ∀ rest, parseStringLoop (s.flatMap escapeChar ++ (0x22 :: rest)) = some (s, rest) := by
  induction s with
  | nil =>
    intro rest
    simp only [List.flatMap_nil, List.nil_append]
    rw [parseStringLoop, if_pos rfl]
  | cons c cs ih =>
    intro rest
    have hc := h c (by simp)
    have ihr := ih (fun x hx => h x (by simp [hx])) rest
    simp only [List.flatMap_cons, List.append_assoc]
    by_cases h1 : c = 0x22
    · subst h1
      rw [show escapeChar 0x22 = [0x5C, 0x22] from by norm_num [escapeChar]]
      simp only [List.cons_append, List.nil_append]
      rw [parseStringLoop, if_neg (by norm_num), if_pos rfl]
      rw [parseStringEsc, if_pos (by norm_num)]
      rw [ihr]
      simp only [Option.map_some']
    · by_cases h2 : c = 0x5C
      · subst h2
        rw [show escapeChar 0x5C = [0x5C, 0x5C] from by norm_num [escapeChar]]
        simp only [List.cons_append, List.nil_append]
        rw [parseStringLoop, if_neg (by norm_num), if_pos rfl]
        rw [parseStringEsc, if_pos (by norm_num)]
        rw [ihr]
        simp only [Option.map_some']
      · by_cases h3 : c < 0x20
        · by_cases hb : c = 0x08
          · subst hb
            rw [show escapeChar 0x08 = [0x5C, 0x62] from by norm_num [escapeChar]]
            simp only [List.cons_append, List.nil_append]
            rw [parseStringLoop, if_neg (by norm_num), if_pos rfl]
            rw [parseStringEsc, if_neg (by norm_num), if_pos rfl]
            rw [ihr]
            simp only [Option.map_some']
          · by_cases ht : c = 0x09
            · subst ht
              rw [show escapeChar 0x09 = [0x5C, 0x74] from by norm_num [escapeChar]]
              simp only [List.cons_append, List.nil_append]
              rw [parseStringLoop, if_neg (by norm_num), if_pos rfl]
              rw [parseStringEsc, if_neg (by norm_num), if_neg (by norm_num), if_pos rfl]
              rw [ihr]
              simp only [Option.map_some']
            · by_cases hn : c = 0x0A
              · subst hn
                rw [show escapeChar 0x0A = [0x5C, 0x6E] from by norm_num [escapeChar]]
                simp only [List.cons_append, List.nil_append]
                rw [parseStringLoop, if_neg (by norm_num), if_pos rfl]
                rw [parseStringEsc, if_neg (by norm_num), if_neg (by norm_num),
                  if_neg (by norm_num), if_pos rfl]
                rw [ihr]
                simp only [Option.map_some']
              · by_cases hf : c = 0x0C
                · subst hf
                  rw [show escapeChar 0x0C = [0x5C, 0x66] from by norm_num [escapeChar]]
                  simp only [List.cons_append, List.nil_append]
                  rw [parseStringLoop, if_neg (by norm_num), if_pos rfl]
                  rw [parseStringEsc, if_neg (by norm_num), if_neg (by norm_num),
                    if_neg (by norm_num), if_neg (by norm_num), if_pos rfl]
                  rw [ihr]
                  simp only [Option.map_some']
                · by_cases hrr : c = 0x0D
                  · subst hrr
                    rw [show escapeChar 0x0D = [0x5C, 0x72] from by norm_num [escapeChar]]
                    simp only [List.cons_append, List.nil_append]
                    rw [parseStringLoop, if_neg (by norm_num), if_pos rfl]
                    rw [parseStringEsc, if_neg (by norm_num), if_neg (by norm_num),
                      if_neg (by norm_num), if_neg (by norm_num), if_neg (by norm_num),
                      if_pos rfl]
                    rw [ihr]
                    simp only [Option.map_some']
                  · have hesc : escapeChar c =
                        [0x5C, 0x75, 0x30, 0x30, hexDigit (c / 16), hexDigit (c % 16)] := by
                      unfold escapeChar
                      rw [if_neg h1, if_neg h2, if_pos h3, if_neg hb, if_neg ht, if_neg hn,
                        if_neg hf, if_neg hrr]
                    rw [hesc]
                    simp only [List.cons_append, List.nil_append]
                    rw [parseStringLoop, if_neg (by norm_num), if_pos rfl]
                    rw [parseStringEsc, if_neg (by norm_num), if_neg (by norm_num),
                      if_neg (by norm_num), if_neg (by norm_num), if_neg (by norm_num),
                      if_neg (by norm_num), if_pos rfl]
                    rw [parseStringHex]
                    rw [show hexVal 0x30 = some 0 from by norm_num [hexVal]]
                    rw [hexVal_hexDigit (by omega : c / 16 < 16),
                      hexVal_hexDigit (by omega : c % 16 < 16)]
                    simp only []
                    rw [if_pos (by omega)]
                    rw [ihr]
                    have hval : ((0 * 16 + 0) * 16 + c / 16) * 16 + c % 16 = c := by omega
                    simp only [Option.map_some', hval]
        · have hesc : escapeChar c = [c] := by
            unfold escapeChar
            rw [if_neg h1, if_neg h2, if_neg h3]
          rw [hesc]
          simp only [List.cons_append, List.nil_append]
          rw [parseStringLoop, if_neg h1, if_neg h2, if_neg h3]
          rw [ihr]
          simp only [Option.map_some']

/-- The continuation after a printed token must not begin with a digit
(digit runs would otherwise merge). -/
def noDigitStartB : List Nat → Bool
  | [] => true
  | c :: _ => !isDigit c

theorem isDigit_bounds {c : Nat} (h : isDigit c = true) : 0x30 ≤ c ∧ c ≤ 0x39 := by
  simp [isDigit] at h
  omega

theorem noDigitStartB_cases {l : List Nat} (h : noDigitStartB l = true) :
    l = [] ∨ ∃ d t, l = d :: t ∧ isDigit d = false := by
  cases l with
  | nil => exact Or.inl rfl
  | cons c t =>
    refine Or.inr ⟨c, t, rfl, ?_⟩
    simp [noDigitStartB] at h
    exact h

/-- The continuation after a printed number must not begin with a
character that could extend the literal: a digit, a decimal point, or an
exponent marker. -/
def numBreakB : List Nat → Bool
  | [] => true
  | c :: _ =>
    if isDigit c then false
    else if c = 0x2E then false
    else if c = 0x65 then false
    else if c = 0x45 then false
    else true

theorem numBreakB_head {c : Nat} {t : List Nat} (h : numBreakB (c :: t) = true) :
    isDigit c = false ∧ c ≠ 0x2E ∧ c ≠ 0x65 ∧ c ≠ 0x45 := by
  simp only [numBreakB] at h
  split at h
  · exact absurd h (by simp)
  · split at h
    · exact absurd h (by simp)
    · split at h
      · exact absurd h (by simp)
      · split at h
        · exact absurd h (by simp)
        · next h1 h2 h3 h4 => exact ⟨by simpa using h1, h2, h3, h4⟩

theorem numBreakB_noDigit {l : List Nat} (h : numBreakB l = true) :
    noDigitStartB l = true := by
  cases l with
  | nil => rfl
  | cons c t =>
    have hh := numBreakB_head h
    simp [noDigitStartB, hh.1]

theorem leadDigitB_of_break {rest : List Nat} (h : numBreakB rest = true) :
    leadDigitB rest = false := by
  cases rest with
  | nil => rfl
  | cons c t =>
    simp only [leadDigitB]
    exact (numBreakB_head h).1

theorem parseNumTail_break (n : Int) {rest : List Nat} (h : numBreakB rest = true) :
    parseNumTail n rest = some (.num n, rest) := by
  cases rest with
  | nil => rfl
  | cons c t =>
    obtain ⟨_, h2, h3, h4⟩ := numBreakB_head h
    rw [parseNumTail, if_neg h2, if_neg (not_or.mpr ⟨h3, h4⟩)]

theorem validStrB_mem {s : List Nat} (h : validStrB s = true) : ∀ c ∈ s, ValidChar c := by
  intro c hc
  simp [validStrB, List.all_eq_true] at h
  exact h c hc

theorem natDigits_shape (m : Nat) :
    ∃ d ds, natDigits m = d :: ds ∧ isDigit d = true ∧ ∀ c ∈ ds, isDigit c = true := by
  cases hh : natDigits m with
  | nil => exact absurd hh (natDigits_ne_nil m)
  | cons d ds =>
    refine ⟨d, ds, rfl, ?_, ?_⟩
    · exact natDigits_digits m d (by rw [hh]; simp)
    · intro c hc
      exact natDigits_digits m c (by rw [hh]; simp [hc])

theorem parseDigitsLoop_natDigits (m : Nat) (rest : List Nat)
    (hrest : noDigitStartB rest = true) {d : Nat} {ds : List Nat}
    (hdds : natDigits m = d :: ds) :
    parseDigitsLoop (d - 0x30) (ds ++ rest) = (m, rest) := by
  have hall : ∀ c ∈ ds, isDigit c = true := by
    intro c hc
    exact natDigits_digits m c (by rw [hdds]; simp [hc])
  rw [parseDigitsLoop_append ds rest hall (noDigitStartB_cases hrest) (d - 0x30)]
  have h0 := natDigits_foldl m
  rw [hdds, List.foldl_cons] at h0
  simp only [Nat.zero_mul, Nat.zero_add] at h0
  rw [h0]

theorem parseValue_num (fuel : Nat) (n : Int) (rest : List Nat)
    (hrest : numBreakB rest = true) :
    parseValue (fuel + 1) (printInt n ++ rest) = some (.num n, rest) := by
  cases n with
  | ofNat m =>
    rcases Nat.eq_zero_or_pos m with hm | hm
    · subst hm
      have h0 : printInt (Int.ofNat 0) = [0x30] := by
        simp only [printInt]
        rw [natDigits]
        norm_num
      rw [h0]
      simp only [List.cons_append, List.nil_append]
      rw [parseValue, skipWs_cons_of_not_ws _ (by norm_num [isWs])]
      rw [parseValueCore]
      rw [if_neg (by norm_num), if_neg (by norm_num), if_neg (by norm_num),
        if_neg (by norm_num), if_neg (by norm_num), if_pos (by norm_num [isDigit])]
      rw [parseNumStart, if_pos rfl, leadDigitB_of_break hrest,
        if_neg (show ¬(false = true) from by simp)]
      exact parseNumTail_break 0 hrest
    · obtain ⟨d, ds, hdds, hd1, hd2⟩ := natDigits_head m hm
      simp only [printInt, hdds, List.cons_append]
      rw [parseValue, skipWs_cons_of_not_ws _ (by simp [isWs]; omega)]
      rw [parseValueCore]
      rw [if_neg (by omega), if_neg (by omega), if_neg (by omega), if_neg (by omega),
        if_neg (by omega), if_pos (by simp [isDigit]; omega)]
      rw [parseNumStart, if_neg (by omega)]
      rw [parseDigitsLoop_natDigits m rest (numBreakB_noDigit hrest) hdds]
      rw [parseNumInt]
      simp only []
      rw [if_neg (show ¬(false = true) from by simp)]
      exact parseNumTail_break _ hrest
  | negSucc m =>
    obtain ⟨d, ds, hdds, hd1, hd2⟩ := natDigits_head (m + 1) (by omega)
    simp only [printInt, hdds, List.cons_append]
    rw [parseValue, skipWs_cons_of_not_ws _ (by norm_num [isWs])]
    rw [parseValueCore]
    rw [if_neg (by norm_num), if_neg (by norm_num), if_neg (by norm_num),
      if_neg (by norm_num), if_pos rfl]
    rw [parseNeg, if_pos (by simp [isDigit]; omega)]
    rw [parseNumStart, if_neg (by omega)]
    rw [parseDigitsLoop_natDigits (m + 1) rest (numBreakB_noDigit hrest) hdds]
    rw [parseNumInt]
    simp only []
    rw [if_pos trivial]
    rw [parseNumTail_break _ hrest]
    simp only [Option.some.injEq, Json.num.injEq, Prod.mk.injEq]
    refine ⟨?_, trivial⟩
    rw [Int.negSucc_eq]
    push_cast
    ring

theorem printJson_head (v : Json) :
    ∃ c t, printJson v = c :: t ∧ isWs c = false ∧ c ≠ 0x5D ∧ c ≠ 0x7D := by
  cases v with
  | null =>
    exact ⟨0x6E, [0x75, 0x6C, 0x6C], by simp [printJson], by norm_num [isWs], by norm_num,
      by norm_num⟩
  | bool b =>
    cases b with
    | true => exact ⟨0x74, [0x72, 0x75, 0x65], by simp [printJson], by norm_num [isWs],
        by norm_num, by norm_num⟩
    | false => exact ⟨0x66, [0x61, 0x6C, 0x73, 0x65], by simp [printJson],
        by norm_num [isWs], by norm_num, by norm_num⟩
  | num n =>
    cases n with
    | ofNat m =>
      obtain ⟨d, ds, hdds, hd, _⟩ := natDigits_shape m
      have hb := isDigit_bounds hd
      exact ⟨d, ds, by simp [printJson, printInt, hdds], by simp [isWs]; omega,
        by omega, by omega⟩
    | negSucc m =>
      exact ⟨0x2D, natDigits (m + 1), by simp [printJson, printInt], by norm_num [isWs],
        by norm_num, by norm_num⟩
  | str s => exact ⟨0x22, s.flatMap escapeChar ++ [0x22], by simp [printJson, printQuoted],
      by norm_num [isWs], by norm_num, by norm_num⟩
  | arr xs => exact ⟨0x5B, printCommaSep xs ++ [0x5D], by simp [printJson],
      by norm_num [isWs], by norm_num, by norm_num⟩
  | obj kvs => exact ⟨0x7B, printMembers kvs ++ [0x7D], by simp [printJson],
      by norm_num [isWs], by norm_num, by norm_num⟩

theorem fsizeList_le_sepTail (xs : List Json)
    (h : ∀ x ∈ xs, Json.fsize x ≤ (printJson x).length) :
    Json.fsizeList xs ≤ (printSepTail xs).length := by
  induction xs with
  | nil => simp [Json.fsizeList, printSepTail]
  | cons y ys ih =>
    have hy := h y (by simp)
    have ihy := ih (fun x hx => h x (by simp [hx]))
    simp only [Json.fsizeList, printSepTail, List.length_cons, List.length_append]
    omega

theorem fsizeKVs_le_memTail (kvs : List (List Nat × Json))
    (h : ∀ p ∈ kvs, Json.fsize p.2 ≤ (printJson p.2).length) :
    Json.fsizeKVs kvs ≤ (printMemTail kvs).length := by
  induction kvs with
  | nil => simp [Json.fsizeKVs, printMemTail]
  | cons p ps ih =>
    obtain ⟨k, v⟩ := p
    have hv : Json.fsize v ≤ (printJson v).length := h (k, v) (by simp)
    have ihp := ih (fun q hq => h q (by simp [hq]))
    simp only [Json.fsizeKVs, printMemTail, List.length_cons, List.length_append]
    omega

theorem fsize_le_print (v : Json) : Json.fsize v ≤ (printJson v).length := by
  induction v using Json.inductionOn with
  | hnull => simp [Json.fsize, printJson]
  | hbool b => cases b <;> simp [Json.fsize, printJson]
  | hnum n =>
    have h1 : Json.fsize (.num n) = 1 := by simp [Json.fsize]
    rw [h1]
    cases n with
    | ofNat m =>
      have := natDigits_ne_nil m
      simp [printJson, printInt]
      exact List.length_pos.mpr this
    | negSucc m => simp [printJson, printInt]
  | hstr s => simp [Json.fsize, printJson, printQuoted]
  | harr xs hIH =>
    simp only [Json.fsize, printJson, List.length_cons, List.length_append]
    cases xs with
    | nil => simp [Json.fsizeList, printCommaSep]
    | cons x xs2 =>
      have hx := hIH x (by simp)
      have hs := fsizeList_le_sepTail xs2 (fun y hy => hIH y (by simp [hy]))
      simp only [Json.fsizeList, printCommaSep, List.length_append, List.length_cons,
        List.length_nil]
      omega
  | hobj kvs hIH =>
    simp only [Json.fsize, printJson, List.length_cons, List.length_append]
    cases kvs with
    | nil => simp [Json.fsizeKVs, printMembers]
    | cons p ps =>
      obtain ⟨k, v⟩ := p
      have hv : Json.fsize v ≤ (printJson v).length := hIH (k, v) (by simp)
      have hs := fsizeKVs_le_memTail ps (fun q hq => hIH q (by simp [hq]))
      simp only [Json.fsizeKVs, printMembers, printQuoted, List.length_append,
        List.length_cons, List.length_nil]
      omega

theorem fsize_pos (v : Json) : 1 ≤ Json.fsize v := by
  cases v <;> simp [Json.fsize]

theorem ndStart_sep (xs : List Json) (rest : List Nat) :
    numBreakB (printSepTail xs ++ (0x5D :: rest)) = true := by
  cases xs with
  | nil => simp [printSepTail, numBreakB, isDigit]
  | cons y ys => simp [printSepTail, numBreakB, isDigit]

theorem ndStart_mem (kvs : List (List Nat × Json)) (rest : List Nat) :
    numBreakB (printMemTail kvs ++ (0x7D :: rest)) = true := by
  cases kvs with
  | nil => simp [printMemTail, numBreakB, isDigit]
  | cons p ps =>
    obtain ⟨k, v⟩ := p
    simp [printMemTail, numBreakB, isDigit]

theorem parse_print_all (fuel : Nat) :
    (∀ v rest, Json.wfB v = true → Json.fsize v ≤ fuel → numBreakB rest = true →
      parseValue fuel (printJson v ++ rest) = some (v, rest)) ∧
    (∀ xs acc rest, Json.wfListB xs = true → Json.fsizeList xs + 1 ≤ fuel →
      parseArrayTail fuel acc (printSepTail xs ++ (0x5D :: rest)) =
        some (.arr (acc.reverse ++ xs), rest)) ∧
    (∀ kvs acc rest, Json.wfKVsB kvs = true → Json.fsizeKVs kvs + 1 ≤ fuel →
      parseObjTail fuel acc (printMemTail kvs ++ (0x7D :: rest)) =
        some (.obj (buildObj (acc.reverse ++ kvs)), rest)) := by
  induction fuel with
  | zero =>
    refine ⟨?_, ?_, ?_⟩
    · intro v rest _ hfs _
      have := fsize_pos v
      omega
    · intro xs acc rest _ hfs
      omega
    · intro kvs acc rest _ hfs
      omega
  | succ fuel ih =>
    obtain ⟨ihv, iha, iho⟩ := ih
    refine ⟨?_, ?_, ?_⟩
    · intro v rest hwf hfs hnd
      cases v with
      | null =>
        rw [show printJson .null = [0x6E, 0x75, 0x6C, 0x6C] from by simp [printJson]]
        simp only [List.cons_append, List.nil_append]
        rw [parseValue, skipWs_cons_of_not_ws _ (by norm_num [isWs])]
        rw [parseValueCore, if_pos rfl]
        rw [parseLitNull, if_pos (by norm_num)]
      | bool b =>
        cases b with
        | true =>
          rw [show printJson (.bool true) = [0x74, 0x72, 0x75, 0x65] from by
            simp [printJson]]
          simp only [List.cons_append, List.nil_append]
          rw [parseValue, skipWs_cons_of_not_ws _ (by norm_num [isWs])]
          rw [parseValueCore, if_neg (by norm_num), if_pos rfl]
          rw [parseLitTrue, if_pos (by norm_num)]
        | false =>
          rw [show printJson (.bool false) = [0x66, 0x61, 0x6C, 0x73, 0x65] from by
            simp [printJson]]
          simp only [List.cons_append, List.nil_append]
          rw [parseValue, skipWs_cons_of_not_ws _ (by norm_num [isWs])]
          rw [parseValueCore, if_neg (by norm_num), if_neg (by norm_num), if_pos rfl]
          rw [parseLitFalse, if_pos (by norm_num)]
      | num n =>
        rw [show printJson (.num n) = printInt n from by simp [printJson]]
        exact parseValue_num fuel n rest hnd
      | str s =>
        rw [show printJson (.str s) = 0x22 :: (s.flatMap escapeChar ++ [0x22]) from by
          simp [printJson, printQuoted]]
        simp only [List.cons_append]
        rw [parseValue, skipWs_cons_of_not_ws _ (by norm_num [isWs])]
        rw [parseValueCore, if_neg (by norm_num), if_neg (by norm_num),
          if_neg (by norm_num), if_pos rfl]
        rw [show (s.flatMap escapeChar ++ [0x22]) ++ rest =
          s.flatMap escapeChar ++ (0x22 :: rest) from by simp]
        have hvs : ∀ c ∈ s, ValidChar c := validStrB_mem (by simpa [Json.wfB] using hwf)
        rw [parseStringLoop_print s hvs rest]
        rfl
      | arr xs =>
        have hwf2 : Json.wfListB xs = true := by simpa [Json.wfB] using hwf
        rw [show printJson (.arr xs) = 0x5B :: (printCommaSep xs ++ [0x5D]) from by
          simp [printJson]]
        simp only [List.cons_append]
        rw [parseValue, skipWs_cons_of_not_ws _ (by norm_num [isWs])]
        rw [parseValueCore, if_neg (by norm_num), if_neg (by norm_num),
          if_neg (by norm_num), if_neg (by norm_num), if_neg (by norm_num),
          if_neg (by norm_num [isDigit]), if_pos rfl]
        cases xs with
        | nil =>
          rw [show (printCommaSep ([] : List Json) ++ [0x5D]) ++ rest = 0x5D :: rest from by
            simp [printCommaSep]]
          rw [skipWs_cons_of_not_ws _ (by norm_num [isWs])]
          rw [parseArrayStart, if_pos rfl]
        | cons x xs2 =>
          have hwfx : Json.wfB x = true := by
            simp [Json.wfListB] at hwf2
            exact hwf2.1
          have hwfxs : Json.wfListB xs2 = true := by
            simp [Json.wfListB] at hwf2
            exact hwf2.2
          have hsz : Json.fsize x ≤ fuel ∧ Json.fsizeList xs2 + 1 ≤ fuel := by
            simp only [Json.fsize, Json.fsizeList] at hfs
            omega
          obtain ⟨c, t, hct, hws, h93, _⟩ := printJson_head x
          rw [show (printCommaSep (x :: xs2) ++ [0x5D]) ++ rest =
            printJson x ++ (printSepTail xs2 ++ (0x5D :: rest)) from by
            simp [printCommaSep, List.append_assoc]]
          rw [hct]
          simp only [List.cons_append]
          rw [skipWs_cons_of_not_ws _ hws]
          rw [parseArrayStart, if_neg h93]
          rw [show c :: (t ++ (printSepTail xs2 ++ (0x5D :: rest))) =
            printJson x ++ (printSepTail xs2 ++ (0x5D :: rest)) from by rw [hct]; simp]
          rw [ihv x _ hwfx hsz.1 (ndStart_sep xs2 rest)]
          simp only []
          rw [iha xs2 [x] rest hwfxs hsz.2]
          simp
      | obj kvs =>
        have hwford : keysOrderedB (kvs.map (·.1)) = true := by
          simp [Json.wfB] at hwf
          exact hwf.1
        have hwfkv : Json.wfKVsB kvs = true := by
          simp [Json.wfB] at hwf
          exact hwf.2
        rw [show printJson (.obj kvs) = 0x7B :: (printMembers kvs ++ [0x7D]) from by
          simp [printJson]]
        simp only [List.cons_append]
        rw [parseValue, skipWs_cons_of_not_ws _ (by norm_num [isWs])]
        rw [parseValueCore, if_neg (by norm_num), if_neg (by norm_num),
          if_neg (by norm_num), if_neg (by norm_num), if_neg (by norm_num),
          if_neg (by norm_num [isDigit]), if_neg (by norm_num), if_pos rfl]
        cases kvs with
        | nil =>
          rw [show (printMembers ([] : List (List Nat × Json)) ++ [0x7D]) ++ rest =
            0x7D :: rest from by simp [printMembers]]
          rw [skipWs_cons_of_not_ws _ (by norm_num [isWs])]
          rw [parseObjStart, if_pos rfl]
        | cons p ps =>
          obtain ⟨k, v⟩ := p
          have hk : validStrB k = true := by
            simp [Json.wfKVsB] at hwfkv
            exact hwfkv.1.1
          have hwfv : Json.wfB v = true := by
            simp [Json.wfKVsB] at hwfkv
            exact hwfkv.1.2
          have hwfps : Json.wfKVsB ps = true := by
            simp [Json.wfKVsB] at hwfkv
            exact hwfkv.2
          have hsz : Json.fsize v ≤ fuel ∧ Json.fsizeKVs ps + 1 ≤ fuel := by
            simp only [Json.fsize, Json.fsizeKVs] at hfs
            omega
          rw [show (printMembers ((k, v) :: ps) ++ [0x7D]) ++ rest =
            0x22 :: (k.flatMap escapeChar ++ (0x22 :: (0x3A ::
              (printJson v ++ (printMemTail ps ++ (0x7D :: rest)))))) from by
            simp [printMembers, printQuoted, List.append_assoc]]
          rw [skipWs_cons_of_not_ws _ (by norm_num [isWs])]
          rw [parseObjStart, if_neg (by norm_num), if_pos rfl]
          rw [parseStringLoop_print k (validStrB_mem hk) _]
          simp only []
          rw [skipWs_cons_of_not_ws _ (by norm_num [isWs])]
          rw [parseMemberColon, if_pos rfl]
          rw [ihv v _ hwfv hsz.1 (ndStart_mem ps rest)]
          simp only []
          rw [iho ps [(k, v)] rest hwfps hsz.2]
          rw [show ([(k, v)] : List (List Nat × Json)).reverse ++ ps = (k, v) :: ps from by
            simp]
          rw [buildObj_sorted _ hwford]
    · intro xs acc rest hwf hfs
      rw [parseArrayTail]
      cases xs with
      | nil =>
        rw [show printSepTail ([] : List Json) ++ (0x5D :: rest) = 0x5D :: rest from by
          simp [printSepTail]]
        rw [skipWs_cons_of_not_ws _ (by norm_num [isWs])]
        rw [parseArrayCore, if_pos rfl]
        simp
      | cons y ys =>
        have hwfy : Json.wfB y = true := by
          simp [Json.wfListB] at hwf
          exact hwf.1
        have hwfys : Json.wfListB ys = true := by
          simp [Json.wfListB] at hwf
          exact hwf.2
        have hsz : Json.fsize y ≤ fuel ∧ Json.fsizeList ys + 1 ≤ fuel := by
          simp only [Json.fsizeList] at hfs
          omega
        rw [show printSepTail (y :: ys) ++ (0x5D :: rest) =
          0x2C :: (printJson y ++ (printSepTail ys ++ (0x5D :: rest))) from by
          simp [printSepTail, List.append_assoc]]
        rw [skipWs_cons_of_not_ws _ (by norm_num [isWs])]
        rw [parseArrayCore, if_neg (by norm_num), if_pos rfl]
        rw [ihv y _ hwfy hsz.1 (ndStart_sep ys rest)]
        simp only []
        rw [iha ys (y :: acc) rest hwfys hsz.2]
        simp [List.append_assoc]
    · intro kvs acc rest hwf hfs
      rw [parseObjTail]
      cases kvs with
      | nil =>
        rw [show printMemTail ([] : List (List Nat × Json)) ++ (0x7D :: rest) =
          0x7D :: rest from by simp [printMemTail]]
        rw [skipWs_cons_of_not_ws _ (by norm_num [isWs])]
        rw [parseObjCore, if_pos rfl]
        simp
      | cons p ps =>
        obtain ⟨k, v⟩ := p
        have hk : validStrB k = true := by
          simp [Json.wfKVsB] at hwf
          exact hwf.1.1
        have hwfv : Json.wfB v = true := by
          simp [Json.wfKVsB] at hwf
          exact hwf.1.2
        have hwfps : Json.wfKVsB ps = true := by
          simp [Json.wfKVsB] at hwf
          exact hwf.2
        have hsz : Json.fsize v ≤ fuel ∧ Json.fsizeKVs ps + 1 ≤ fuel := by
          simp only [Json.fsizeKVs] at hfs
          omega
        rw [show printMemTail ((k, v) :: ps) ++ (0x7D :: rest) =
          0x2C :: (0x22 :: (k.flatMap escapeChar ++ (0x22 :: (0x3A ::
            (printJson v ++ (printMemTail ps ++ (0x7D :: rest))))))) from by
          simp [printMemTail, printQuoted, List.append_assoc]]
        rw [skipWs_cons_of_not_ws _ (by norm_num [isWs])]
        rw [parseObjCore, if_neg (by norm_num), if_pos rfl]
        rw [skipWs_cons_of_not_ws _ (by norm_num [isWs])]
        rw [parseMemberKey, if_pos rfl]
        rw [parseStringLoop_print k (validStrB_mem hk) _]
        simp only []
        rw [skipWs_cons_of_not_ws _ (by norm_num [isWs])]
        rw [parseMemberColon, if_pos rfl]
        rw [ihv v _ hwfv hsz.1 (ndStart_mem ps rest)]
        simp only []
        rw [iho ps ((k, v) :: acc) rest hwfps hsz.2]
        simp [List.append_assoc]

theorem escapeChar_valid {c : Nat} (h : ValidChar c) : ∀ x ∈ escapeChar c, ValidChar x := by
  intro x hx
  have hsmall : x = c ∨ x < 0xD800 := by
    unfold escapeChar at hx
    split at hx
    · simp at hx
      omega
    · split at hx
      · simp at hx
        omega
      · split at hx
        · split at hx
          · simp at hx
            omega
          · split at hx
            · simp at hx
              omega
            · split at hx
              · simp at hx
                omega
              · split at hx
                · simp at hx
                  omega
                · split at hx
                  · simp at hx
                    omega
                  · have hd1 : hexDigit (c / 16) < 0xD800 := by
                      unfold hexDigit
                      split <;> omega
                    have hd2 : hexDigit (c % 16) < 0xD800 := by
                      unfold hexDigit
                      split <;> omega
                    simp at hx
                    omega
        · simp at hx
          omega
  rcases hsmall with h1 | h1
  · rw [h1]
    exact h
  · exact Or.inl h1

theorem printQuoted_valid {s : List Nat} (h : validStrB s = true) :
    ∀ c ∈ printQuoted s, ValidChar c := by
  intro c hc
  simp only [printQuoted, List.mem_cons, List.mem_append, List.mem_flatMap] at hc
  rcases hc with hc | hc
  · rw [hc]
    norm_num [ValidChar]
  · rcases hc with ⟨a, ha, hm⟩ | hc
    · exact escapeChar_valid (validStrB_mem h a ha) c hm
    · simp at hc
      rw [hc]
      norm_num [ValidChar]

theorem printInt_valid (n : Int) : ∀ c ∈ printInt n, ValidChar c := by
  intro c hc
  cases n with
  | ofNat m =>
    simp only [printInt] at hc
    have := isDigit_bounds (natDigits_digits m c hc)
    exact Or.inl (by omega)
  | negSucc m =>
    simp only [printInt, List.mem_cons] at hc
    rcases hc with hc | hc
    · rw [hc]
      norm_num [ValidChar]
    · have := isDigit_bounds (natDigits_digits (m + 1) c hc)
      exact Or.inl (by omega)

theorem printSep_valid (ys : List Json)
    (hwf : Json.wfListB ys = true)
    (hIH : ∀ y ∈ ys, Json.wfB y = true → ∀ c ∈ printJson y, ValidChar c) :
    (∀ c ∈ printCommaSep ys, ValidChar c) ∧ (∀ c ∈ printSepTail ys, ValidChar c) := by
  induction ys with
  | nil => simp [printCommaSep, printSepTail]
  | cons y ys2 ih =>
    have hwfy : Json.wfB y = true := by
      simp [Json.wfListB] at hwf
      exact hwf.1
    have hwfys : Json.wfListB ys2 = true := by
      simp [Json.wfListB] at hwf
      exact hwf.2
    have hy : ∀ c ∈ printJson y, ValidChar c := hIH y (by simp) hwfy
    have ihr := ih hwfys (fun x hx => hIH x (by simp [hx]))
    constructor
    · intro c hc
      simp only [printCommaSep, List.mem_append] at hc
      rcases hc with hc | hc
      · exact hy c hc
      · exact ihr.2 c hc
    · intro c hc
      simp only [printSepTail, List.mem_cons, List.mem_append] at hc
      rcases hc with hc | hc | hc
      · rw [hc]
        norm_num [ValidChar]
      · exact hy c hc
      · exact ihr.2 c hc

theorem printMem_valid (kvs : List (List Nat × Json))
    (hwf : Json.wfKVsB kvs = true)
    (hIH : ∀ p ∈ kvs, Json.wfB p.2 = true → ∀ c ∈ printJson p.2, ValidChar c) :
    (∀ c ∈ printMembers kvs, ValidChar c) ∧ (∀ c ∈ printMemTail kvs, ValidChar c) := by
  induction kvs with
  | nil => simp [printMembers, printMemTail]
  | cons p ps ih =>
    obtain ⟨k, v⟩ := p
    have hk : validStrB k = true := by
      simp [Json.wfKVsB] at hwf
      exact hwf.1.1
    have hwfv : Json.wfB v = true := by
      simp [Json.wfKVsB] at hwf
      exact hwf.1.2
    have hwfps : Json.wfKVsB ps = true := by
      simp [Json.wfKVsB] at hwf
      exact hwf.2
    have hv : ∀ c ∈ printJson v, ValidChar c := hIH (k, v) (by simp) hwfv
    have ihr := ih hwfps (fun q hq => hIH q (by simp [hq]))
    constructor
    · intro c hc
      simp only [printMembers, List.mem_append, List.mem_cons] at hc
      rcases hc with (hc | hc | hc) | hc
      · exact printQuoted_valid hk c hc
      · rw [hc]
        norm_num [ValidChar]
      · exact hv c hc
      · exact ihr.2 c hc
    · intro c hc
      simp only [printMemTail, List.mem_cons, List.mem_append] at hc
      rcases hc with hc | (hc | hc | hc) | hc
      · rw [hc]
        norm_num [ValidChar]
      · exact printQuoted_valid hk c hc
      · rw [hc]
        norm_num [ValidChar]
      · exact hv c hc
      · exact ihr.2 c hc

theorem printJson_valid (v : Json) (h : Json.wfB v = true) :
    ∀ c ∈ printJson v, ValidChar c := by
  induction v using Json.inductionOn with
  | hnull =>
    intro c hc
    simp [printJson] at hc
    rcases hc with h1 | h1 | h1 <;> (rw [h1]; norm_num [ValidChar])
  | hbool b =>
    intro c hc
    cases b <;> simp [printJson] at hc <;>
      (rcases hc with h1 | h1 | h1 | h1 <;> first
        | (rw [h1]; norm_num [ValidChar])
        | (rcases h1 with h1 | h1 <;> (rw [h1]; norm_num [ValidChar])))
  | hnum n =>
    intro c hc
    simp only [printJson] at hc
    exact printInt_valid n c hc
  | hstr s =>
    intro c hc
    simp only [printJson] at hc
    exact printQuoted_valid (by simpa [Json.wfB] using h) c hc
  | harr xs hIH =>
    intro c hc
    have hwf2 : Json.wfListB xs = true := by simpa [Json.wfB] using h
    have hall := printSep_valid xs hwf2 (fun y hy hw => hIH y hy hw)
    simp only [printJson, List.mem_cons, List.mem_append] at hc
    rcases hc with hc | hc | hc
    · rw [hc]
      norm_num [ValidChar]
    · exact hall.1 c hc
    · simp at hc
      rw [hc]
      norm_num [ValidChar]
  | hobj kvs hIH =>
    intro c hc
    have hwfkv : Json.wfKVsB kvs = true := by
      simp [Json.wfB] at h
      exact h.2
    have hall := printMem_valid kvs hwfkv (fun p hp hw => hIH p hp hw)
    simp only [printJson, List.mem_cons, List.mem_append] at hc
    rcases hc with hc | hc | hc
    · rw [hc]
      norm_num [ValidChar]
    · exact hall.1 c hc
    · simp at hc
      rw [hc]
      norm_num [ValidChar]

theorem utf16Encode_lt (s : List Nat) (h : ∀ c ∈ s, ValidChar c) :
    ∀ u ∈ utf16Encode s, u < 0x10000 := by
  intro u hu
  simp only [utf16Encode, List.mem_flatMap] at hu
  obtain ⟨c, hc, hm⟩ := hu
  exact utf16EncodeChar_lt (h c hc) u hm

theorem from_str_print (v : Json) (h : Json.wfB v = true) :
    from_str (printJson v) = some v := by
  unfold from_str
  have hle : Json.fsize v ≤ (printJson v).length + 1 :=
    le_trans (fsize_le_print v) (Nat.le_succ _)
  have hp := (parse_print_all ((printJson v).length + 1)).1 v [] h hle (by
    simp [numBreakB])
  rw [List.append_nil] at hp
  rw [hp]
  simp [skipWs]

theorem decode_encode (v : Json) (h : Json.wfB v = true) :
    decode_utf16_le_bytes (encode_json_to_bytes v) = .ok v := by
  have hval := printJson_valid v h
  unfold encode_json_to_bytes decode_utf16_le_bytes
  simp only []
  rw [if_neg (by
    have := unitsToBytes_length_even (utf16Encode (printJson v))
    omega)]
  rw [bytesToUnits_unitsToBytes _ (utf16Encode_lt _ hval)]
  rw [utf16Decode_encode _ hval]
  simp only []
  rw [from_str_print v h]

theorem readEntriesLoop_spec (l : List (List Byte × List Byte)) :
    ∀ acc, readEntriesLoop l acc = acc.reverse ++
      l.map (fun kv => ⟨kv.1, kv.2, (decode_utf16_le_bytes kv.2).toOption⟩) := by
  induction l with
  | nil => intro acc; simp [readEntriesLoop]
  | cons kv rest ih =>
    intro acc
    obtain ⟨k, v⟩ := kv
    rw [readEntriesLoop, ih]
    simp

theorem open_database_spec (s : Store) :
    open_database_and_read_entries s = s.entries.map
      (fun kv => ⟨kv.1, kv.2, (decode_utf16_le_bytes kv.2).toOption⟩) := by
  rw [open_database_and_read_entries, readEntriesLoop_spec]
  simp

theorem find?_eq_some_of_mem {α : Type} (p : α → Bool) (l : List α) (x : α)
    (hx : x ∈ l) (hp : p x = true) : ∃ y, l.find? p = some y := by
  induction l with
  | nil => simp at hx
  | cons a rest ih =>
    by_cases ha : p a = true
    · exact ⟨a, List.find?_cons_of_pos _ ha⟩
    · rcases List.mem_cons.mp hx with hx1 | hx1
      · subst hx1
        exact absurd hp ha
      · obtain ⟨y, hy⟩ := ih hx1
        exact ⟨y, by rw [List.find?_cons_of_neg _ (by simp [ha]), hy]⟩

theorem entryMatches_iff (e : DatabaseEntry) :
    entryMatches e = true ↔
      ∃ j m, e.json_data = some j ∧ j.get mcpKey = some (.str m) := by
  unfold entryMatches
  cases hj : e.json_data with
  | none => simp
  | some j =>
    simp only [Option.some.injEq]
    cases hg : j.get mcpKey with
    | none => simp [hg]
    | some v =>
      cases v <;> simp_all

theorem findMcpLoop_skip (e : DatabaseEntry) (rest : List DatabaseEntry)
    (hm : entryMatches e = false) : findMcpLoop (e :: rest) = findMcpLoop rest := by
  rw [findMcpLoop]
  cases hj : e.json_data with
  | none => rfl
  | some j =>
    simp only []
    cases hg : j.get mcpKey with
    | none => rfl
    | some v =>
      cases v with
      | str m =>
        exfalso
        have hx : entryMatches e = true := (entryMatches_iff e).mpr ⟨j, m, hj, hg⟩
        rw [hx] at hm
        simp at hm
      | null => rfl
      | bool b => rfl
      | num n => rfl
      | arr xs => rfl
      | obj kvs => rfl

theorem findMcpLoop_hit (e : DatabaseEntry) (rest : List DatabaseEntry) (j : Json)
    (m : List Nat) (hj : e.json_data = some j) (hg : j.get mcpKey = some (.str m)) :
    findMcpLoop (e :: rest) = ((parseCherryConfig m).elim
      (Except.error (.JsonError "")) (fun c => Except.ok (c, j))) := by
  rw [findMcpLoop, hj]
  simp only []
  rw [hg]
  simp only []
  cases hp : parseCherryConfig m with
  | none => simp [Option.elim]
  | some c => simp [Option.elim]

theorem findMcpLoop_spec (entries : List DatabaseEntry) :
    (entries.find? entryMatches = none ∧ findMcpLoop entries = .error .ConfigNotFound) ∨
    (∃ e j m, entries.find? entryMatches = some e ∧ e.json_data = some j ∧
      j.get mcpKey = some (.str m) ∧
      findMcpLoop entries = ((parseCherryConfig m).elim (Except.error (.JsonError ""))
        (fun c => Except.ok (c, j)))) := by
  induction entries with
  | nil => exact Or.inl ⟨rfl, rfl⟩
  | cons e rest ih =>
    by_cases hm : entryMatches e = true
    · right
      have hf : (e :: rest).find? entryMatches = some e := List.find?_cons_of_pos _ hm
      obtain ⟨j, m, hj, hg⟩ := (entryMatches_iff e).mp hm
      exact ⟨e, j, m, hf, hj, hg, findMcpLoop_hit e rest j m hj hg⟩
    · have hmf : entryMatches e = false := by
        cases h2 : entryMatches e
        · rfl
        · exact absurd h2 hm
      have hf : (e :: rest).find? entryMatches = rest.find? entryMatches :=
        List.find?_cons_of_neg _ (by simp [hmf])
      have hloop := findMcpLoop_skip e rest hmf
      rcases ih with ⟨h1, h2⟩ | ⟨e2, j2, m2, h1, h2, h3, h4⟩
      · exact Or.inl ⟨hf.trans h1, hloop.trans h2⟩
      · exact Or.inr ⟨e2, j2, m2, hf.trans h1, h2, h3, hloop.trans h4⟩

theorem findMcpLoop_ok (entries : List DatabaseEntry) (cfg : CherryMcpConfig) (pd : Json)
    (h : findMcpLoop entries = .ok (cfg, pd)) :
    ∃ m, pd.get mcpKey = some (.str m) ∧ parseCherryConfig m = some cfg ∧
      ∃ e ∈ entries, e.json_data = some pd := by
  induction entries with
  | nil => simp [findMcpLoop] at h
  | cons e rest ih =>
    by_cases hm : entryMatches e = true
    · obtain ⟨j, m, hj, hg⟩ := (entryMatches_iff e).mp hm
      rw [findMcpLoop_hit e rest j m hj hg] at h
      cases hp : parseCherryConfig m with
      | none =>
        rw [hp] at h
        simp [Option.elim] at h
      | some c =>
        rw [hp] at h
        simp [Option.elim] at h
        refine ⟨m, ?_, ?_, e, by simp, ?_⟩
        · rw [← h.2, hg]
        · rw [← h.1, hp]
        · rw [hj, h.2]
    · have hmf : entryMatches e = false := by
        cases h2 : entryMatches e
        · rfl
        · exact absurd h2 hm
      rw [findMcpLoop_skip e rest hmf] at h
      obtain ⟨m, h1, h2, e2, he2, hj2⟩ := ih h
      exact ⟨m, h1, h2, e2, by simp [he2], hj2⟩

theorem lookupKey_objInsert_self (kvs : List (List Nat × Json)) (k : List Nat) (v : Json) :
    lookupKey (objInsert kvs k v) k = some v := by
  induction kvs with
  | nil => simp [objInsert, lookupKey]
  | cons p rest ih =>
    rw [objInsert]
    split
    · rw [lookupKey, if_pos rfl]
    · split
      · rw [lookupKey, if_pos rfl]
      · rename_i h1 h2
        rw [lookupKey, if_neg (fun he => h2 he.symm)]
        exact ih

theorem lookupKey_objInsert_other (kvs : List (List Nat × Json)) (k : List Nat) (v : Json)
    (k2 : List Nat) (h : k2 ≠ k) :
    lookupKey (objInsert kvs k v) k2 = lookupKey kvs k2 := by
  induction kvs with
  | nil =>
    simp only [objInsert, lookupKey]
    rw [if_neg (fun he => h he.symm)]
  | cons p rest ih =>
    rw [objInsert]
    split
    · rw [lookupKey, if_neg (fun he => h he.symm)]
    · split
      · rename_i h1 h2
        rw [lookupKey, if_neg (fun he => h he.symm), lookupKey]
        rw [if_neg (by rw [← h2]; exact fun he => h he.symm)]
      · rw [lookupKey, lookupKey]
        split
        · rfl
        · exact ih

theorem get_setField_self (j : Json) (k : List Nat) (v : Json)
    (hobj : ∃ kvs, j = .obj kvs) : (j.setField k v).get k = some v := by
  obtain ⟨kvs, hj⟩ := hobj
  subst hj
  simp only [Json.setField, Json.get]
  exact lookupKey_objInsert_self kvs k v

theorem get_setField_other (j : Json) (k : List Nat) (v : Json) (k2 : List Nat)
    (h : k2 ≠ k) : (j.setField k v).get k2 = j.get k2 := by
  cases j with
  | obj kvs =>
    simp only [Json.setField, Json.get]
    exact lookupKey_objInsert_other kvs k v k2 h
  | null => rfl
  | bool b => rfl
  | num n => rfl
  | str s => rfl
  | arr xs => rfl

theorem map_ofRequest_ofResponse (l : List ServerResponse) :
    (l.map ServerRequest.ofResponse).map ServerResponse.ofRequest = l := by
  induction l with
  | nil => rfl
  | cons x xs ih =>
    simp only [List.map_cons, ih]
    rfl

theorem find_mcp_ok_target (s : Store) (cfg : CherryMcpConfig) (pd : Json)
    (h : find_mcp_config_internal s = .ok (cfg, pd)) :
    ∃ tgt, (open_database_and_read_entries s).find?
      (fun e => e.json_data.isSome) = some tgt := by
  obtain ⟨m, _, _, e, he, hj⟩ := findMcpLoop_ok _ cfg pd h
  exact find?_eq_some_of_mem _ _ e he (by simp [hj])

theorem write_mcp_config_eq (s : Store) (config : McpConfigRequest)
    (cfg : CherryMcpConfig) (pd : Json)
    (h : find_mcp_config_internal s = .ok (cfg, pd)) :
    write_mcp_config s config = update_database_entry s
      (pd.setField mcpKey (.str (printJson (CherryMcpConfig.toJson
        ⟨config.servers.map ServerResponse.ofRequest⟩)))) := by
  unfold write_mcp_config
  rw [h]

theorem write_mcp_config_ok (s : Store) (config : McpConfigRequest)
    (cfg : CherryMcpConfig) (pd : Json)
    (h : find_mcp_config_internal s = .ok (cfg, pd)) :
    ∃ tgt, (open_database_and_read_entries s).find?
        (fun e => e.json_data.isSome) = some tgt ∧
      write_mcp_config s config = .ok ⟨tgt.key, encode_json_to_bytes
        (pd.setField mcpKey (.str (printJson (CherryMcpConfig.toJson
          ⟨config.servers.map ServerResponse.ofRequest⟩))))⟩ := by
  obtain ⟨tgt, htgt⟩ := find_mcp_ok_target s cfg pd h
  refine ⟨tgt, htgt, ?_⟩
  rw [write_mcp_config_eq s config cfg pd h]
  unfold update_database_entry
  rw [htgt]

theorem write_ok_inv (s : Store) (config : McpConfigRequest) (p : Put)
    (h : write_mcp_config s config = .ok p) :
    ∃ cfg pd tgt, find_mcp_config_internal s = .ok (cfg, pd) ∧
      (open_database_and_read_entries s).find?
        (fun e => e.json_data.isSome) = some tgt ∧
      p = ⟨tgt.key, encode_json_to_bytes (pd.setField mcpKey (.str (printJson
        (CherryMcpConfig.toJson ⟨config.servers.map ServerResponse.ofRequest⟩))))⟩ := by
  unfold write_mcp_config at h
  cases hf : find_mcp_config_internal s with
  | error e =>
    rw [hf] at h
    simp at h
  | ok pr =>
    obtain ⟨cfg, pd⟩ := pr
    rw [hf] at h
    simp only [] at h
    unfold update_database_entry at h
    cases htgt : (open_database_and_read_entries s).find?
        (fun e => e.json_data.isSome) with
    | none =>
      rw [htgt] at h
      simp at h
    | some tgt =>
      rw [htgt] at h
      simp only [] at h
      refine ⟨cfg, pd, tgt, rfl, rfl, ?_⟩
      exact (Except.ok.inj h).symm

theorem filter_ne_eq_self (l : List ServerResponse) (i : List Nat)
    (h : ∀ x ∈ l, x.id ≠ i) : l.filter (fun x => x.id ≠ i) = l := by
  apply List.filter_eq_self.mpr
  intro a ha
  simp [h a ha]

theorem filter_ne_length_succ (l : List ServerResponse) (i : List Nat)
    (hn : (l.map (fun x => x.id)).Nodup) (old : ServerResponse) (hmem : old ∈ l)
    (hid : old.id = i) :
    (l.filter (fun x => x.id ≠ i)).length + 1 = l.length := by
  induction l with
  | nil => simp at hmem
  | cons x xs ih =>
    simp only [List.map_cons, List.nodup_cons] at hn
    by_cases hx : x.id = i
    · have hxs : ∀ y ∈ xs, y.id ≠ i := by
        intro y hy he
        apply hn.1
        rw [hx, ← he]
        exact List.mem_map_of_mem _ hy
      rw [List.filter_cons_of_neg (by simp [hx])]
      rw [filter_ne_eq_self xs i hxs]
      simp
    · rw [List.filter_cons_of_pos (by simp [hx])]
      have hold : old ∈ xs := by
        rcases List.mem_cons.mp hmem with h1 | h1
        · subst h1
          exact absurd hid hx
        · exact h1
      simp only [List.length_cons]
      rw [← ih hn.2 hold]

theorem filter_kept_eq_nil (l : List ServerResponse) (i : List Nat) :
    (l.filter (fun x => x.id ≠ i)).filter (fun x => x.id = i) = [] := by
  rw [List.filter_eq_nil_iff]
  intro a ha
  have h2 := (List.mem_filter.mp ha).2
  simp at h2 ⊢
  exact h2

theorem add_server_eq (s : Store) (srv : ServerRequest) (cfg : CherryMcpConfig) (pd : Json)
    (h : find_mcp_config_internal s = .ok (cfg, pd)) :
    add_server s srv = write_mcp_config s
      ⟨(cfg.servers.filter (fun x => x.id ≠ srv.id) ++
        [ServerResponse.ofRequest srv]).map ServerRequest.ofResponse⟩ := by
  unfold add_server
  rw [show read_mcp_config s = .ok ⟨cfg.servers⟩ from by
    unfold read_mcp_config
    rw [h]
    rfl]

theorem remove_server_eq (s : Store) (i : List Nat) (cfg : CherryMcpConfig) (pd : Json)
    (h : find_mcp_config_internal s = .ok (cfg, pd))
    (hlen : ¬(cfg.servers.filter (fun x => x.id ≠ i)).length = cfg.servers.length) :
    remove_server s i = write_mcp_config s
      ⟨(cfg.servers.filter (fun x => x.id ≠ i)).map ServerRequest.ofResponse⟩ := by
  unfold remove_server
  rw [show read_mcp_config s = .ok ⟨cfg.servers⟩ from by
    unfold read_mcp_config
    rw [h]
    rfl]
  simp only []
  rw [if_neg hlen]

theorem add_ok_inv (s : Store) (req : ServerRequest) (p : Put)
    (h : add_server s req = .ok p) :
    ∃ config, write_mcp_config s config = .ok p := by
  unfold add_server at h
  cases hr : read_mcp_config s with
  | error e =>
    rw [hr] at h
    simp at h
  | ok config =>
    rw [hr] at h
    simp only [] at h
    exact ⟨_, h⟩

theorem remove_ok_inv (s : Store) (i : List Nat) (p : Put)
    (h : remove_server s i = .ok p) :
    ∃ config, write_mcp_config s config = .ok p := by
  unfold remove_server at h
  cases hr : read_mcp_config s with
  | error e =>
    rw [hr] at h
    simp at h
  | ok config =>
    rw [hr] at h
    simp only [] at h
    split at h
    · simp at h
    · exact ⟨_, h⟩

theorem optMember_mem {α : Type} {key : List Nat} {o : Option α} {f : α → Json}
    {p : List Nat × Json} (hp : p ∈ optMember key o f) :
    ∃ x, o = some x ∧ p = (key, f x) := by
  cases o with
  | none => simp [optMember] at hp
  | some x =>
    simp [optMember] at hp
    exact ⟨x, rfl, hp⟩

theorem lookupKey_eq_none (l : List (List Nat × Json)) (k : List Nat)
    (h : ∀ p ∈ l, p.1 ≠ k) : lookupKey l k = none := by
  induction l with
  | nil => rfl
  | cons p rest ih =>
    obtain ⟨k1, v1⟩ := p
    rw [lookupKey, if_neg (h (k1, v1) (by simp))]
    exact ih (fun q hq => h q (by simp [hq]))

theorem lookupKey_mem (l : List (List Nat × Json)) (k : List Nat) (v : Json)
    (h : lookupKey l k = some v) : (k, v) ∈ l := by
  induction l with
  | nil => simp [lookupKey] at h
  | cons p rest ih =>
    obtain ⟨k1, v1⟩ := p
    rw [lookupKey] at h
    split at h
    · rename_i he
      simp at h
      subst he h
      simp
    · exact List.mem_cons_of_mem _ (ih h)

theorem serverPairs_mem (r : ServerResponse) (p : List Nat × Json)
    (hp : p ∈ serverPairs r) :
    p.1 ∈ knownFieldKeys ∧ p.2 ≠ Json.null ∧
    (r.command = none → p.1 ≠ commandKey) ∧
    (r.args = none → p.1 ≠ argsKey) ∧
    (r.env = none → p.1 ≠ envKey) ∧
    (r.base_url = none → p.1 ≠ baseUrlKey) ∧
    (r.headers = none → p.1 ≠ headersKey) ∧
    (r.long_running = none → p.1 ≠ longRunningKey) := by
  simp only [serverPairs, List.mem_cons, List.mem_append] at hp
  rcases hp with hp | hp | hp | hp | hp | hp | hp | hp | hp | hp
  · subst hp
    simp only []
    exact ⟨by simp [knownFieldKeys], by simp, fun _ => by decide, fun _ => by decide,
      fun _ => by decide, fun _ => by decide, fun _ => by decide, fun _ => by decide⟩
  · subst hp
    simp only []
    exact ⟨by simp [knownFieldKeys], by simp, fun _ => by decide, fun _ => by decide,
      fun _ => by decide, fun _ => by decide, fun _ => by decide, fun _ => by decide⟩
  · subst hp
    simp only []
    exact ⟨by simp [knownFieldKeys], by simp, fun _ => by decide, fun _ => by decide,
      fun _ => by decide, fun _ => by decide, fun _ => by decide, fun _ => by decide⟩
  · subst hp
    simp only []
    exact ⟨by simp [knownFieldKeys], by simp, fun _ => by decide, fun _ => by decide,
      fun _ => by decide, fun _ => by decide, fun _ => by decide, fun _ => by decide⟩
  · obtain ⟨x, hx, hpx⟩ := optMember_mem hp
    subst hpx
    simp only []
    refine ⟨by simp [knownFieldKeys], by simp, ?_, fun _ => by decide, fun _ => by decide,
      fun _ => by decide, fun _ => by decide, fun _ => by decide⟩
    intro hcn
    rw [hx] at hcn
    simp at hcn
  · obtain ⟨x, hx, hpx⟩ := optMember_mem hp
    subst hpx
    simp only []
    refine ⟨by simp [knownFieldKeys], by simp, fun _ => by decide, ?_, fun _ => by decide,
      fun _ => by decide, fun _ => by decide, fun _ => by decide⟩
    intro hcn
    rw [hx] at hcn
    simp at hcn
  · obtain ⟨x, hx, hpx⟩ := optMember_mem hp
    subst hpx
    simp only []
    refine ⟨by simp [knownFieldKeys], by simp [strMapToJson], fun _ => by decide,
      fun _ => by decide, ?_, fun _ => by decide, fun _ => by decide, fun _ => by decide⟩
    intro hcn
    rw [hx] at hcn
    simp at hcn
  · obtain ⟨x, hx, hpx⟩ := optMember_mem hp
    subst hpx
    simp only []
    refine ⟨by simp [knownFieldKeys], by simp, fun _ => by decide, fun _ => by decide,
      fun _ => by decide, ?_, fun _ => by decide, fun _ => by decide⟩
    intro hcn
    rw [hx] at hcn
    simp at hcn
  · obtain ⟨x, hx, hpx⟩ := optMember_mem hp
    subst hpx
    simp only []
    refine ⟨by simp [knownFieldKeys], by simp [strMapToJson], fun _ => by decide,
      fun _ => by decide, fun _ => by decide, fun _ => by decide, ?_, fun _ => by decide⟩
    intro hcn
    rw [hx] at hcn
    simp at hcn
  · obtain ⟨x, hx, hpx⟩ := optMember_mem hp
    subst hpx
    simp only []
    refine ⟨by simp [knownFieldKeys], by simp, fun _ => by decide, fun _ => by decide,
      fun _ => by decide, fun _ => by decide, fun _ => by decide, ?_⟩
    intro hcn
    rw [hx] at hcn
    simp at hcn

theorem validStrB_of {s : List Nat} (h : ∀ c ∈ s, ValidChar c) : validStrB s = true := by
  simp only [validStrB, List.all_eq_true, decide_eq_true_eq]
  exact h

theorem wf_srvS2Doc : Json.wfB srvS2Doc = true := by
  simp only [srvS2Doc, Json.wfB, Json.wfKVsB]
  decide

theorem wf_demoInner : Json.wfB demoInner = true := by
  simp only [demoInner, srvS2Doc, Json.wfB, Json.wfListB, Json.wfKVsB]
  decide

theorem wf_demoParent : Json.wfB demoParent = true := by
  have h1 : validStrB (printJson demoInner) = true :=
    validStrB_of (printJson_valid demoInner wf_demoInner)
  simp only [demoParent, demoMcpStr, Json.wfB, Json.wfKVsB, h1]
  decide

theorem parse_demoMcpStr : parseCherryConfig demoMcpStr = some ⟨[srvS2]⟩ := by
  unfold parseCherryConfig demoMcpStr
  rw [from_str_print demoInner wf_demoInner]
  rfl

theorem entries_demoStore : open_database_and_read_entries demoStore =
    [⟨[byte 7], encode_json_to_bytes demoParent, some demoParent⟩] := by
  rw [open_database_spec]
  simp [demoStore, decode_encode demoParent wf_demoParent, Except.toOption]

theorem find_demoStore :
    find_mcp_config_internal demoStore = .ok (⟨[srvS2]⟩, demoParent) := by
  unfold find_mcp_config_internal
  rw [entries_demoStore]
  rw [findMcpLoop_hit _ [] demoParent demoMcpStr rfl rfl]
  rw [parse_demoMcpStr]
  rfl

theorem read_demoStore : read_mcp_config demoStore = .ok ⟨[srvS2]⟩ := by
  unfold read_mcp_config
  rw [find_demoStore]
  rfl

/-- C3: Codec round-trip — for every JSON document D (as maintained by
serde_json's Value: sorted object keys, valid scalar strings),
`decode(encode(D))` succeeds and returns a document structurally equal
to D. -/
theorem codec_round_trip (D : Json) (h : Json.wfB D = true) :
    decode_utf16_le_bytes (encode_json_to_bytes D) = .ok D :=
  decode_encode D h

/-- Concrete witness document for the codec round-trip. -/
def rtDoc : Json :=
  .obj [(ustr "a", .arr [.num (-12), .null, .bool true, .str (ustr "x\ny\"")]),
    (mcpKey, .str (ustr "n")), (ustr "z", .num 7)]

theorem wf_rtDoc : Json.wfB rtDoc = true := by
  simp only [rtDoc, Json.wfB, Json.wfListB, Json.wfKVsB]
  decide

theorem codec_round_trip_witness :
    Json.wfB rtDoc = true ∧
      decode_utf16_le_bytes (encode_json_to_bytes rtDoc) = .ok rtDoc :=
  ⟨wf_rtDoc, codec_round_trip rtDoc wf_rtDoc⟩

/-- C4: removing an identifier absent from the stored list fails with
`ServerNotFound` and issues no write; a subsequent `list_servers` still
returns the old list (with its length as the count). -/
theorem remove_absent_is_error (s : Store) (i : List Nat) (r : McpConfigResponse)
    (h : read_mcp_config s = .ok r) (h2 : ∀ sv ∈ r.servers, sv.id ≠ i) :
    remove_server s i = .error (.ServerNotFound i) ∧
    list_servers s = .ok ⟨r.servers, r.servers.length⟩ := by
  constructor
  · unfold remove_server
    rw [h]
    simp only []
    rw [if_pos (by rw [filter_ne_eq_self r.servers i h2])]
  · unfold list_servers
    rw [h]
    rfl

theorem remove_absent_is_error_witness :
    remove_server demoStore (ustr "s1") = .error (.ServerNotFound (ustr "s1")) ∧
    list_servers demoStore = .ok ⟨[srvS2], [srvS2].length⟩ :=
  remove_absent_is_error demoStore (ustr "s1") ⟨[srvS2]⟩ read_demoStore (by decide)

/-- C6: the Locator is first-match-wins over scan order: with no matching
entry it fails with `ConfigNotFound`; otherwise it parses the first
matching entry's `mcp` string, failing with a JSON error (not skipping
ahead) when that string does not parse. -/
theorem locate_first_match_wins (s : Store) :
    ((open_database_and_read_entries s).find? entryMatches = none ∧
      find_mcp_config_internal s = .error .ConfigNotFound) ∨
    (∃ e j m, (open_database_and_read_entries s).find? entryMatches = some e ∧
      e.json_data = some j ∧ j.get mcpKey = some (.str m) ∧
      find_mcp_config_internal s = ((parseCherryConfig m).elim
        (Except.error (.JsonError "")) (fun c => Except.ok (c, j)))) :=
  findMcpLoop_spec (open_database_and_read_entries s)

/-- C8: the scan is total and tolerant — one decoded entry per raw entry,
in order, with the decoded document attached exactly when the value
decodes; a decode failure leaves the entry present with no document. -/
theorem scan_is_total_and_tolerant (s : Store) :
    (open_database_and_read_entries s).length = s.entries.length ∧
    ∀ i : Nat, (open_database_and_read_entries s)[i]? = (s.entries[i]?).map
      (fun kv => DatabaseEntry.mk kv.1 kv.2 (decode_utf16_le_bytes kv.2).toOption) := by
  rw [open_database_spec]
  constructor
  · simp
  · intro i
    simp

/-- C10: when no entry matches the embedded-field convention, all three
mutating operations fail with `ConfigNotFound` and issue no put. -/
theorem mutations_atomic_on_locate_failure (s : Store)
    (h : (open_database_and_read_entries s).find? entryMatches = none) :
    ∀ (config : McpConfigRequest) (req : ServerRequest) (i : List Nat),
      write_mcp_config s config = .error .ConfigNotFound ∧
      add_server s req = .error .ConfigNotFound ∧
      remove_server s i = .error .ConfigNotFound := by
  have hfind : find_mcp_config_internal s = .error .ConfigNotFound := by
    rcases findMcpLoop_spec (open_database_and_read_entries s) with ⟨_, h2⟩ | ⟨e, _, _, h1, _⟩
    · exact h2
    · rw [h] at h1
      exact Option.noConfusion h1
  intro config req i
  refine ⟨?_, ?_, ?_⟩
  · unfold write_mcp_config
    rw [hfind]
  · unfold add_server read_mcp_config
    rw [hfind]
    rfl
  · unfold remove_server read_mcp_config
    rw [hfind]
    rfl

theorem mutations_atomic_witness :
    write_mcp_config noMcpStore ⟨[]⟩ = .error .ConfigNotFound ∧
    add_server noMcpStore reqS1 = .error .ConfigNotFound ∧
    remove_server noMcpStore (ustr "s2") = .error .ConfigNotFound :=
  mutations_atomic_on_locate_failure noMcpStore (by rfl) ⟨[]⟩ reqS1 (ustr "s2")

/-- C5: `add_server` is an upsert — it never fails because the identifier
exists; the written list replaces any record with the same identifier
(unchanged length, exactly one record with that identifier, carrying the
request's values) and otherwise appends the record. -/
theorem add_server_is_upsert (s : Store) (srv : ServerRequest) (cfg : CherryMcpConfig)
    (pd : Json) (h : find_mcp_config_internal s = .ok (cfg, pd))
    (hn : (cfg.servers.map (fun x => x.id)).Nodup) :
    ∃ p, add_server s srv = .ok p ∧
      p.value = encode_json_to_bytes (pd.setField mcpKey (.str (printJson
        (CherryMcpConfig.toJson ⟨cfg.servers.filter (fun x => x.id ≠ srv.id) ++
          [ServerResponse.ofRequest srv]⟩)))) ∧
      ((cfg.servers.filter (fun x => x.id ≠ srv.id) ++
        [ServerResponse.ofRequest srv]).filter (fun x => x.id = srv.id) =
        [ServerResponse.ofRequest srv]) ∧
      ((∃ old ∈ cfg.servers, old.id = srv.id) →
        (cfg.servers.filter (fun x => x.id ≠ srv.id) ++
          [ServerResponse.ofRequest srv]).length = cfg.servers.length) ∧
      ((∀ old ∈ cfg.servers, old.id ≠ srv.id) →
        cfg.servers.filter (fun x => x.id ≠ srv.id) ++ [ServerResponse.ofRequest srv] =
          cfg.servers ++ [ServerResponse.ofRequest srv]) := by
  obtain ⟨tgt, htgt, hw⟩ := write_mcp_config_ok s
    ⟨(cfg.servers.filter (fun x => x.id ≠ srv.id) ++
      [ServerResponse.ofRequest srv]).map ServerRequest.ofResponse⟩ cfg pd h
  rw [show ((cfg.servers.filter (fun x => x.id ≠ srv.id) ++
      [ServerResponse.ofRequest srv]).map ServerRequest.ofResponse).map
      ServerResponse.ofRequest =
      cfg.servers.filter (fun x => x.id ≠ srv.id) ++ [ServerResponse.ofRequest srv] from
    map_ofRequest_ofResponse _] at hw
  refine ⟨⟨tgt.key, encode_json_to_bytes (pd.setField mcpKey (.str (printJson
    (CherryMcpConfig.toJson ⟨cfg.servers.filter (fun x => x.id ≠ srv.id) ++
      [ServerResponse.ofRequest srv]⟩))))⟩, ?_, rfl, ?_, ?_, ?_⟩
  · rw [add_server_eq s srv cfg pd h]
    exact hw
  · rw [List.filter_append, filter_kept_eq_nil]
    simp only [List.nil_append]
    rw [List.filter_cons_of_pos (by simp [ServerResponse.ofRequest])]
    rfl
  · intro hex
    obtain ⟨old, hold, holdid⟩ := hex
    simp only [List.length_append, List.length_cons, List.length_nil]
    have := filter_ne_length_succ cfg.servers srv.id hn old hold holdid
    omega
  · intro hall
    rw [filter_ne_eq_self cfg.servers srv.id hall]

theorem add_server_is_upsert_witness :
    ∃ p, add_server demoStore reqS1 = .ok p ∧
      p.value = encode_json_to_bytes (demoParent.setField mcpKey (.str (printJson
        (CherryMcpConfig.toJson ⟨[srvS2].filter (fun x => x.id ≠ reqS1.id) ++
          [ServerResponse.ofRequest reqS1]⟩)))) ∧
      (([srvS2].filter (fun x => x.id ≠ reqS1.id) ++
        [ServerResponse.ofRequest reqS1]).filter (fun x => x.id = reqS1.id) =
        [ServerResponse.ofRequest reqS1]) ∧
      ((∃ old ∈ [srvS2], old.id = reqS1.id) →
        ([srvS2].filter (fun x => x.id ≠ reqS1.id) ++
          [ServerResponse.ofRequest reqS1]).length = [srvS2].length) ∧
      ((∀ old ∈ [srvS2], old.id ≠ reqS1.id) →
        [srvS2].filter (fun x => x.id ≠ reqS1.id) ++ [ServerResponse.ofRequest reqS1] =
          [srvS2] ++ [ServerResponse.ofRequest reqS1]) :=
  add_server_is_upsert demoStore reqS1 ⟨[srvS2]⟩ demoParent find_demoStore (by decide)

/-- C7: the decode failure cases — an `EncodingError` exactly for the
empty input, an odd payload, or invalid UTF-16; a `JsonError` exactly when
the payload decodes to text that does not parse as JSON; and the header
byte is discarded without validation. -/
theorem decode_failure_characterization :
    (∀ (b b2 : Byte) (t : List Byte),
      decode_utf16_le_bytes (b :: t) = decode_utf16_le_bytes (b2 :: t)) ∧
    ∀ bytes : List Byte,
      (isEncodingFailure (decode_utf16_le_bytes bytes) = true ↔
        (bytes = [] ∨ (bytes.length - 1) % 2 = 1 ∨
          utf16Decode (bytesToUnits bytes.tail) = none)) ∧
      (isJsonFailure (decode_utf16_le_bytes bytes) = true ↔
        (bytes ≠ [] ∧ (bytes.length - 1) % 2 = 0 ∧
          ∃ us, utf16Decode (bytesToUnits bytes.tail) = some us ∧ from_str us = none)) := by
  constructor
  · intro b b2 t
    rfl
  · intro bytes
    cases bytes with
    | nil =>
      constructor
      · simp [decode_utf16_le_bytes, isEncodingFailure]
      · simp [decode_utf16_le_bytes, isJsonFailure]
    | cons b t =>
      have hshape : decode_utf16_le_bytes (b :: t) = (if t.length % 2 ≠ 0 then
          .error (.EncodingError "Invalid UTF-16 data length")
        else
          match utf16Decode (bytesToUnits t) with
          | none => .error (.EncodingError "Invalid UTF-16 data")
          | some json_string =>
            match from_str json_string with
            | some v => .ok v
            | none => .error (.JsonError "")) := rfl
      have hlen : ((b :: t : List Byte).length - 1) % 2 = t.length % 2 := by simp
      have htail : (b :: t : List Byte).tail = t := rfl
      rw [hshape, htail, hlen]
      by_cases hpar : t.length % 2 = 0
      · rw [if_neg (by omega)]
        cases hdec : utf16Decode (bytesToUnits t) with
        | none =>
          constructor
          · simp [isEncodingFailure]
          · simp [isJsonFailure]
        | some us =>
          simp only []
          cases hstr : from_str us with
          | none =>
            simp only []
            constructor
            · simp [isEncodingFailure, hpar]
            · simp only [isJsonFailure]
              constructor
              · intro _
                exact ⟨by simp, hpar, us, rfl, hstr⟩
              · intro _
                trivial
          | some v =>
            simp only []
            constructor
            · simp [isEncodingFailure, hpar]
            · simp only [isJsonFailure]
              constructor
              · intro hfalse
                exact absurd hfalse (by simp)
              · intro hcon
                obtain ⟨_, _, us2, hus2, hstr2⟩ := hcon
                rw [Option.some.injEq] at hus2
                subst hus2
                rw [hstr] at hstr2
                exact Option.noConfusion hstr2
      · rw [if_pos (by omega)]
        constructor
        · simp [isEncodingFailure]
          omega
        · simp [isJsonFailure]
          intro _ h2
          omega

theorem wf_otherDoc : Json.wfB otherDoc = true := by
  simp only [otherDoc, Json.wfB, Json.wfKVsB]
  decide

theorem wf_emptyInner : Json.wfB emptyInner = true := by
  simp only [emptyInner, Json.wfB, Json.wfListB, Json.wfKVsB]
  decide

theorem wf_parentDoc : Json.wfB parentDoc = true := by
  have h1 : validStrB (printJson emptyInner) = true :=
    validStrB_of (printJson_valid emptyInner wf_emptyInner)
  simp only [parentDoc, Json.wfB, Json.wfKVsB, h1]
  decide

theorem entries_divergence : open_database_and_read_entries divergenceStore =
    [⟨keyA, encode_json_to_bytes otherDoc, some otherDoc⟩,
      ⟨keyB, encode_json_to_bytes parentDoc, some parentDoc⟩] := by
  rw [open_database_spec]
  simp [divergenceStore, decode_encode otherDoc wf_otherDoc,
    decode_encode parentDoc wf_parentDoc, Except.toOption]

theorem parse_emptyMcp : parseCherryConfig (printJson emptyInner) = some ⟨[]⟩ := by
  unfold parseCherryConfig
  rw [from_str_print emptyInner wf_emptyInner]
  rfl

theorem find_divergence :
    find_mcp_config_internal divergenceStore = .ok (⟨[]⟩, parentDoc) := by
  unfold find_mcp_config_internal
  rw [entries_divergence]
  rw [findMcpLoop_skip _ _ (by rfl)]
  rw [findMcpLoop_hit _ [] parentDoc (printJson emptyInner) rfl rfl]
  rw [parse_emptyMcp]
  rfl

theorem findq_divergence : (open_database_and_read_entries divergenceStore).find?
    (fun e => e.json_data.isSome) =
    some ⟨keyA, encode_json_to_bytes otherDoc, some otherDoc⟩ := by
  rw [entries_divergence]
  rfl

theorem findq_demoStore : (open_database_and_read_entries demoStore).find?
    (fun e => e.json_data.isSome) =
    some ⟨[byte 7], encode_json_to_bytes demoParent, some demoParent⟩ := by
  rw [entries_demoStore]
  rfl

/-- C1: the code violates this claim — in a store whose first
JSON-decodable entry is not the located (mcp-holding) entry, the single
put of a successful `write_mcp_config` goes to the first decodable
entry's key, not to the located entry's key. -/
theorem rewrite_put_targets_first_decodable_key :
    locatedEntryKey divergenceStore = some keyB ∧
    write_mcp_config divergenceStore ⟨[]⟩ = .ok ⟨keyA, encode_json_to_bytes
      (parentDoc.setField mcpKey (.str (printJson (CherryMcpConfig.toJson ⟨[]⟩))))⟩ ∧
    keyA ≠ keyB := by
  refine ⟨?_, ?_, by decide⟩
  · unfold locatedEntryKey
    rw [entries_divergence]
    rw [List.find?_cons_of_neg _ (by decide)]
    rw [List.find?_cons_of_pos _ (by decide)]
    rfl
  · obtain ⟨tgt, htgt, hw⟩ := write_mcp_config_ok divergenceStore ⟨[]⟩ ⟨[]⟩ parentDoc
      find_divergence
    rw [findq_divergence] at htgt
    have htgt2 : tgt = ⟨keyA, encode_json_to_bytes otherDoc, some otherDoc⟩ :=
      (Option.some.inj htgt).symm
    subst htgt2
    exact hw

/-- C2: the code violates the frame part of this claim — the written
parent document does preserve every field other than `mcp`, but the put
lands on a key other than the located entry's key, changing that other
key's stored value. -/
theorem rewrite_clobbers_unrelated_key :
    ∃ p, write_mcp_config divergenceStore ⟨[]⟩ = .ok p ∧
      locatedEntryKey divergenceStore = some keyB ∧
      p.key ≠ keyB ∧
      (divergenceStore.applyPut p).get keyA ≠ divergenceStore.get keyA ∧
      (∀ k2, k2 ≠ mcpKey →
        (parentDoc.setField mcpKey (.str (printJson
          (CherryMcpConfig.toJson ⟨[]⟩)))).get k2 = parentDoc.get k2) := by
  have hsame : parentDoc.setField mcpKey (.str (printJson
      (CherryMcpConfig.toJson ⟨[]⟩))) = parentDoc := rfl
  refine ⟨⟨keyA, encode_json_to_bytes (parentDoc.setField mcpKey (.str (printJson
    (CherryMcpConfig.toJson ⟨[]⟩))))⟩, ?_, ?_, by decide, ?_, ?_⟩
  · exact rewrite_put_targets_first_decodable_key.2.1
  · exact rewrite_put_targets_first_decodable_key.1
  · intro heq
    have h1 : (divergenceStore.applyPut ⟨keyA, encode_json_to_bytes
        (parentDoc.setField mcpKey (.str (printJson
          (CherryMcpConfig.toJson ⟨[]⟩))))⟩).get keyA =
        some (encode_json_to_bytes (parentDoc.setField mcpKey (.str (printJson
          (CherryMcpConfig.toJson ⟨[]⟩))))) := rfl
    have h2 : divergenceStore.get keyA = some (encode_json_to_bytes otherDoc) := rfl
    rw [h1, h2] at heq
    have hbytes := Option.some.inj heq
    have hd1 : decode_utf16_le_bytes (encode_json_to_bytes (parentDoc.setField mcpKey
        (.str (printJson (CherryMcpConfig.toJson ⟨[]⟩))))) = .ok parentDoc := by
      rw [hsame]
      exact decode_encode parentDoc wf_parentDoc
    rw [hbytes, decode_encode otherDoc wf_otherDoc] at hd1
    have hjson := Except.ok.inj hd1
    have hlen := congrArg (fun j => j.objKeys.length) hjson
    simp [Json.objKeys, parentDoc, otherDoc] at hlen
  · intro k2 hk2
    exact get_setField_other parentDoc mcpKey _ k2 hk2

/-- C9: server records round-trip through the fixed typed struct — the
rewritten record objects carry only the known wire fields (unknown stored
fields are dropped), absent optionals are omitted rather than written as
null, and every successful `add_server` / `remove_server` writes its
nested document through the typed serializer. -/
theorem typed_struct_round_trip :
    (∀ (r : ServerResponse), ∀ k ∈ (ServerResponse.toJson r).objKeys,
      k ∈ knownFieldKeys) ∧
    (∀ (r : ServerResponse) (k : List Nat), k ∉ knownFieldKeys →
      (ServerResponse.toJson r).get k = none) ∧
    (∀ r : ServerResponse,
      (r.command = none → (ServerResponse.toJson r).get commandKey = none) ∧
      (r.args = none → (ServerResponse.toJson r).get argsKey = none) ∧
      (r.env = none → (ServerResponse.toJson r).get envKey = none) ∧
      (r.base_url = none → (ServerResponse.toJson r).get baseUrlKey = none) ∧
      (r.headers = none → (ServerResponse.toJson r).get headersKey = none) ∧
      (r.long_running = none → (ServerResponse.toJson r).get longRunningKey = none)) ∧
    (∀ (r : ServerResponse) (k : List Nat),
      (ServerResponse.toJson r).get k ≠ some Json.null) ∧
    (∀ (s : Store) (req : ServerRequest) (p : Put), add_server s req = .ok p →
      ∃ doc c, p.value = encode_json_to_bytes doc ∧
        doc.get mcpKey = some (.str (printJson (CherryMcpConfig.toJson c)))) ∧
    (∀ (s : Store) (i : List Nat) (p : Put), remove_server s i = .ok p →
      ∃ doc c, p.value = encode_json_to_bytes doc ∧
        doc.get mcpKey = some (.str (printJson (CherryMcpConfig.toJson c)))) := by
  have writeShape : ∀ (s : Store) (config : McpConfigRequest) (p : Put),
      write_mcp_config s config = .ok p →
      ∃ doc c, p.value = encode_json_to_bytes doc ∧
        doc.get mcpKey = some (.str (printJson (CherryMcpConfig.toJson c))) := by
    intro s config p hw
    obtain ⟨cfg, pd, tgt, hf, htgt, hp⟩ := write_ok_inv s config p hw
    refine ⟨pd.setField mcpKey (.str (printJson (CherryMcpConfig.toJson
      ⟨config.servers.map ServerResponse.ofRequest⟩))),
      ⟨config.servers.map ServerResponse.ofRequest⟩, by rw [hp], ?_⟩
    apply get_setField_self
    obtain ⟨m, hm, _, _⟩ := findMcpLoop_ok _ cfg pd hf
    cases pd with
    | obj kvs => exact ⟨kvs, rfl⟩
    | null => simp [Json.get] at hm
    | bool b => simp [Json.get] at hm
    | num n => simp [Json.get] at hm
    | str s2 => simp [Json.get] at hm
    | arr xs => simp [Json.get] at hm
  refine ⟨?_, ?_, ?_, ?_, ?_, ?_⟩
  · intro r k hk
    simp only [ServerResponse.toJson, Json.objKeys, List.mem_map] at hk
    obtain ⟨p, hp, hpk⟩ := hk
    rw [← hpk]
    exact (serverPairs_mem r p hp).1
  · intro r k hk
    simp only [ServerResponse.toJson, Json.get]
    apply lookupKey_eq_none
    intro p hp he
    exact hk (he ▸ (serverPairs_mem r p hp).1)
  · intro r
    refine ⟨?_, ?_, ?_, ?_, ?_, ?_⟩
    · intro hnone
      simp only [ServerResponse.toJson, Json.get]
      apply lookupKey_eq_none
      intro p hp
      exact (serverPairs_mem r p hp).2.2.1 hnone
    · intro hnone
      simp only [ServerResponse.toJson, Json.get]
      apply lookupKey_eq_none
      intro p hp
      exact (serverPairs_mem r p hp).2.2.2.1 hnone
    · intro hnone
      simp only [ServerResponse.toJson, Json.get]
      apply lookupKey_eq_none
      intro p hp
      exact (serverPairs_mem r p hp).2.2.2.2.1 hnone
    · intro hnone
      simp only [ServerResponse.toJson, Json.get]
      apply lookupKey_eq_none
      intro p hp
      exact (serverPairs_mem r p hp).2.2.2.2.2.1 hnone
    · intro hnone
      simp only [ServerResponse.toJson, Json.get]
      apply lookupKey_eq_none
      intro p hp
      exact (serverPairs_mem r p hp).2.2.2.2.2.2.1 hnone
    · intro hnone
      simp only [ServerResponse.toJson, Json.get]
      apply lookupKey_eq_none
      intro p hp
      exact (serverPairs_mem r p hp).2.2.2.2.2.2.2 hnone
  · intro r k hsome
    simp only [ServerResponse.toJson, Json.get] at hsome
    have hmem := lookupKey_mem _ _ _ hsome
    exact (serverPairs_mem r (k, Json.null) hmem).2.1 rfl
  · intro s req p hadd
    obtain ⟨config, hw⟩ := add_ok_inv s req p hadd
    exact writeShape s config p hw
  · intro s i p hrem
    obtain ⟨config, hw⟩ := remove_ok_inv s i p hrem
    exact writeShape s config p hw

theorem add_demo_put : add_server demoStore reqS1 = .ok ⟨[byte 7],
    encode_json_to_bytes (demoParent.setField mcpKey (.str (printJson
      (CherryMcpConfig.toJson ⟨[srvS2].filter (fun x => x.id ≠ reqS1.id) ++
        [ServerResponse.ofRequest reqS1]⟩))))⟩ := by
  rw [add_server_eq demoStore reqS1 ⟨[srvS2]⟩ demoParent find_demoStore]
  obtain ⟨tgt, htgt, hw⟩ := write_mcp_config_ok demoStore
    ⟨([srvS2].filter (fun x => x.id ≠ reqS1.id) ++
      [ServerResponse.ofRequest reqS1]).map ServerRequest.ofResponse⟩
    ⟨[srvS2]⟩ demoParent find_demoStore
  rw [show (([srvS2].filter (fun x => x.id ≠ reqS1.id) ++
      [ServerResponse.ofRequest reqS1]).map ServerRequest.ofResponse).map
      ServerResponse.ofRequest =
      [srvS2].filter (fun x => x.id ≠ reqS1.id) ++ [ServerResponse.ofRequest reqS1] from
    map_ofRequest_ofResponse _] at hw
  rw [findq_demoStore] at htgt
  have htgt2 : tgt = ⟨[byte 7], encode_json_to_bytes demoParent, some demoParent⟩ :=
    (Option.some.inj htgt).symm
  subst htgt2
  exact hw

theorem typed_struct_round_trip_witness :
    (ServerResponse.toJson srvS2).get (ustr "extra") = none ∧
    (ServerResponse.toJson srvS2).get commandKey = none ∧
    ∃ doc c, (encode_json_to_bytes (demoParent.setField mcpKey (.str (printJson
        (CherryMcpConfig.toJson ⟨[srvS2].filter (fun x => x.id ≠ reqS1.id) ++
          [ServerResponse.ofRequest reqS1]⟩))))) = encode_json_to_bytes doc ∧
      doc.get mcpKey = some (.str (printJson (CherryMcpConfig.toJson c))) :=
  ⟨typed_struct_round_trip.2.1 srvS2 (ustr "extra") (by decide),
    (typed_struct_round_trip.2.2.1 srvS2).1 rfl,
    typed_struct_round_trip.2.2.2.2.1 demoStore reqS1 _ add_demo_put⟩
